import Mathlib

/-!
Shallow embedding of the django-mom management command
(src/django_mom/management/commands/mom.py) and proofs about its
reconciliation algorithm.

Modelling conventions:
* YAML fixture values are `FVal` (scalars, DjangoFile values produced by
  `streamline_fields`, nested dicts for related objects, lists for
  many-to-many sets).
* The database is a list of rows (`Obj`) with a surrogate primary key
  counter; Django model instances are row snapshots, instance equality is
  model-plus-pk equality.
* ORM side effects are recorded as an event trace (`Ev`).
* `_start_mapping` recurses through `Remapper.prepare`, which can wrap a
  scalar back into a dict, so the embedding uses an explicit fuel
  parameter; every claim is stated for all fuel values.
* Python exceptions (NonUniqueFieldException, UnsupportedValueException,
  FieldDoesNotExist, DoesNotExist, `exit(1)`, ...) are `MErr` values.
-/

namespace Mom

/-- Scalar YAML / database values. -/
inductive Val where
  | s (x : String)
  | i (x : Int)
  | b (x : Bool)
  | null
deriving DecidableEq

/-- Fixture field values: scalars, DjangoFile handles (file name, size,
modification time), nested dicts and lists, mirroring what
`yaml.safe_load` plus `streamline_fields` can produce. -/
inductive FVal where
  | v (x : Val)
  | file (name : String) (size : Nat) (mtime : Int)
  | dict (fs : List (String × FVal))
  | list (xs : List FVal)

mutual

/-- Python equality on fixture values. -/
def FVal.beq : FVal → FVal → Bool
  | .v a, .v b => a = b
  | .file n sz m, .file n' sz' m' => n = n' && sz = sz' && m = m'
  | .dict a, .dict b => beqFields a b
  | .list a, .list b => beqFList a b
  | _, _ => false
termination_by structural a b => a

/-- Python equality on dict values. -/
def beqFields : List (String × FVal) → List (String × FVal) → Bool
  | [], [] => true
  | (k, v) :: as, (k', v') :: bs => k = k' && FVal.beq v v' && beqFields as bs
  | _, _ => false
termination_by structural a b => a

/-- Python equality on list values. -/
def beqFList : List FVal → List FVal → Bool
  | [], [] => true
  | a :: as, b :: bs => FVal.beq a b && beqFList as bs
  | _, _ => false
termination_by structural a b => a

end

instance : BEq FVal := ⟨FVal.beq⟩

/-- Errors: each constructor models a Python exception or `exit(1)` in
mom.py; `fuelOut` marks exhaustion of the recursion fuel. -/
inductive MErr where
  | nonUnique        -- NonUniqueFieldException
  | unsupported      -- UnsupportedValueException
  | missingLookup    -- MissingLookupFieldException
  | badValue         -- FieldDoesNotExist / DoesNotExist / AttributeError
  | exits            -- exit(1)
  | fuelOut
deriving DecidableEq

/-- A stored FileField value: storage name, size, modification time, and
whether the backing file exists on disk. -/
structure StoredFile where
  fname : String
  size : Nat
  mtime : Int
  onDisk : Bool
deriving DecidableEq

/-- A database column value: plain value, foreign key reference,
many-to-many set (through-table contents), or file field. -/
inductive Attr where
  | v (x : FVal)
  | ref (pk : Option Nat)
  | many (pks : List Nat)
  | file (f : Option StoredFile)

/-- A database row / model instance snapshot. -/
structure Obj where
  pk : Nat
  model : String
  attrs : List (String × Attr)

/-- The database: rows plus the next fresh surrogate primary key. -/
structure DB where
  objs : List Obj
  next : Nat

/-- ORM side effects performed by `_start_mapping`. -/
inductive Ev where
  | create (model : String) (pk : Nat)
  | save (model : String) (pk : Nat)
  | delete (pk : Nat)
  | setA (pk : Nat) (field : String)
  | m2mSet (pk : Nat) (field : String)
  | fileSave (pk : Nat) (field : String)
deriving DecidableEq

/-- Association list lookup (Python dict access). -/
def afind : List (String × α) → String → Option α
  | [], _ => none
  | (k, v) :: rest, key => if k = key then some v else afind rest key

/-- Python dict insertion: replace the value in place if the key exists,
otherwise append. -/
def dinsert : List (String × α) → String → α → List (String × α)
  | [], key, x => [(key, x)]
  | (k, v) :: rest, key, x =>
    if k = key then (k, x) :: rest else (k, v) :: dinsert rest key x

/-- Attribute access on an instance; a column a row never received reads
as Python `None`. -/
def getattrA (o : Obj) (f : String) : Attr :=
  (afind o.attrs f).getD (.v (.v .null))

def getattrO (o : Option Obj) (f : String) : Attr :=
  match o with
  | some o => getattrA o f
  | none => .v (.v .null)

/-- Fetch a row by primary key. -/
def rowOf (db : DB) (pk : Nat) : Option Obj :=
  db.objs.find? (fun o => o.pk = pk)

/-- Model `save()`: update the row with this pk, or insert it. -/
def dbSave (db : DB) (o : Obj) : DB :=
  if db.objs.any (fun r => r.pk = o.pk) then
    { db with objs := db.objs.map (fun r => if r.pk = o.pk then o else r) }
  else
    { db with objs := db.objs ++ [o] }

/-- Model `delete()`. -/
def dbDelete (db : DB) (pk : Nat) : DB :=
  { db with objs := db.objs.filter (fun r => r.pk ≠ pk) }

/-- Model `objects.create(**fields)`: insert a fresh row. -/
def dbCreate (db : DB) (model : String) (attrs : List (String × Attr)) : Obj × DB :=
  let o : Obj := ⟨db.next, model, attrs⟩
  (o, ⟨db.objs ++ [o], db.next + 1⟩)

/-- Python equality between a column value and a fixture value, as used by
`field_values != getattr(db_object, field_name)`: plain columns compare by
value, a null foreign key equals Python `None`, a FieldFile equals the
string holding its name; everything else is unequal. -/
def attrEqFVal : Attr → FVal → Bool
  | .v x, fv => FVal.beq x fv
  | .ref none, .v .null => true
  | .ref (some _), _ => false
  | .many _, _ => false
  | .file (some sf), .v (.s s) => sf.fname = s
  | .file _, _ => false
  | .ref none, _ => false

/-- Instance equality (`Model.__eq__`): same class and same pk; `None`
equals `None`. -/
def objOptBeq : Option Obj → Option Obj → Bool
  | none, none => true
  | some a, some b => a.pk = b.pk && a.model = b.model
  | _, _ => false

/-- Structural split of a character list on a separator character
(Python `str.split` with an explicit separator). -/
def splitCharAux (sep : Char) : List Char → List (List Char)
  | [] => [[]]
  | c :: rest =>
    match splitCharAux sep rest with
    | [] => [[]]
    | g :: gs => if c = sep then [] :: g :: gs else (c :: g) :: gs

/-- Python `s.split(' ')`. -/
def splitSpace (s : String) : List String :=
  (splitCharAux ' ' s.toList).map (fun cs => String.mk cs)

/-- Structural split of a character list on the two-character separator
`__` used by Django lookups. -/
def splitKeyChars : List Char → List (List Char)
  | [] => [[]]
  | '_' :: '_' :: rest => [] :: splitKeyChars rest
  | c :: rest =>
    match splitKeyChars rest with
    | [] => [[c]]
    | g :: gs => (c :: g) :: gs

/-- Split a flattened lookup key on `__` for query traversal. -/
def splitKey (k : String) : List String :=
  (splitKeyChars k.toList).map (fun cs => String.mk cs)

/-- Follow a `__`-joined lookup path through foreign keys and compare the
final column with the fixture value (the QuerySet filter semantics the
embedding uses). -/
def matchPath (db : DB) : Obj → List String → FVal → Bool
  | _, [], _ => false
  | o, [p], v => attrEqFVal (getattrA o p) v
  | o, p :: q :: ps, v =>
    match getattrA o p with
    | .ref (some r) =>
      match rowOf db r with
      | some ro => matchPath db ro (q :: q :: ps).tail v
      | none => false
    | _ => false

/-- Model `model_class.objects.filter(**lookup_fields)`. -/
def dbFilter (db : DB) (model : String) (flat : List (String × FVal)) : List Obj :=
  db.objs.filter (fun o =>
    o.model = model && flat.all (fun kv => matchPath db o (splitKey kv.1) kv.2))

/-- The qualified key of mom.py line 158:
`key if parent_key is None else f"{parent_key}__{key}"`. -/
def qualKey (parent : Option String) (k : String) : String :=
  match parent with
  | Option.none => k
  | some p => p ++ "__" ++ k

mutual

/-- Worker for `Mapper.flatten_lookup_fields`: iterate the dict, qualify
each key with the parent path, and dispatch on the value. -/
def flattenAux : List (String × FVal) → Option String → List (String × FVal) →
    Except MErr (List (String × FVal))
  | [], _, acc => .ok acc
  | (k, v) :: rest, parent, acc =>
    let qk := qualKey parent k
    match flattenVal v qk acc with
    | .ok acc' => flattenAux rest parent acc'
    | .error e => .error e
termination_by structural a b c => a

/-- One value of `flatten_lookup_fields`: recurse into nested dicts with
the `__`-qualified key, reject lists, insert scalars into the shared
accumulator. -/
def flattenVal : FVal → String → List (String × FVal) →
    Except MErr (List (String × FVal))
  | .dict d, qk, acc => flattenAux d (some qk) acc
  | .list _, _, _ => .error .unsupported
  | .v x, qk, acc => .ok (dinsert acc qk (.v x))
  | .file n sz mt, qk, acc => .ok (dinsert acc qk (.file n sz mt))
termination_by structural a b c => a

end

/-- Embedding of `Mapper.flatten_lookup_fields` (mom.py lines 154-168). -/
def flatten_lookup_fields (fs : List (String × FVal)) : Except MErr (List (String × FVal)) :=
  flattenAux fs none []

mutual

/-- Modelled from the claim's words for C10: the flat dictionary whose
keys join the nesting path with `__`, scalars kept with the same value
(the spec-side reading, to be compared with `flatten_lookup_fields`). -/
def flatSpecFields : List (String × FVal) → Option String → List (String × FVal)
  | [], _ => []
  | (k, v) :: rest, parent =>
    flatSpecVal v (qualKey parent k) ++ flatSpecFields rest parent
termination_by structural a b => a

def flatSpecVal : FVal → String → List (String × FVal)
  | .dict d, qk => flatSpecFields d (some qk)
  | .list _, _ => []
  | .v x, qk => [(qk, .v x)]
  | .file n sz mt, qk => [(qk, .file n sz mt)]
termination_by structural a b => a

end

mutual

/-- Some value at some depth is a list (the condition under which C10
expects `UnsupportedValueException`). -/
def hasListFields : List (String × FVal) → Bool
  | [] => false
  | (_, v) :: rest => hasListVal v || hasListFields rest
termination_by structural a => a

def hasListVal : FVal → Bool
  | .dict d => hasListFields d
  | .list _ => true
  | .v _ => false
  | .file _ _ _ => false
termination_by structural a => a

end

/-- An on-disk source file visible to `streamline_fields`. -/
structure FileInfo where
  content : String
  size : Nat
  mtime : Int

/-- Kind of a model field as reported by `_meta.get_field`: `none` means
the field does not exist (FieldDoesNotExist), `some none` a non-relational
field, `some (some m)` a relation to model `m`. -/
abbrev FieldKind := Option (Option String)

/-- The remap entry for a model as read from the mom YAML file. -/
structure RemapSpec where
  lookupField : Option (List String)
  lookupFieldOptional : Option (List String)
  ownership : Option String

/-- Static context: Django model metadata, the remap table, the implicit
lookup fields, and the fixture source tree contents. -/
structure Ctx where
  getField : String → String → FieldKind
  remapping : List (String × RemapSpec)
  implicitLookup : List (String × String)
  fs : List (String × FileInfo)

/-- The `Ownership` enum. -/
inductive Ownership where
  | none
  | single
  | shared
deriving DecidableEq, BEq

def Ownership.ofString : String → Option Ownership
  | "none" => some .none
  | "single" => some .single
  | "shared" => some .shared
  | _ => Option.none

/-- Path join, as `os.path.join` is used on relative fixture paths. -/
def pjoin (a b : String) : String := a ++ "/" ++ b

/-- One entry of `streamline_fields`: split the field name on spaces; a
`file` option replaces the value by the file text, a `djangofile` option
by a DjangoFile handle; unreadable files mean `exit(1)`. -/
def streamEntry (ctx : Ctx) (pwd : String) (k : String) (v : FVal) :
    Except MErr (String × FVal) :=
  let parts := splitSpace k
  if parts.length ≤ 1 then .ok (k, v)
  else
    let name := parts.headD k
    let opts := parts.tail
    if opts.contains "file" then
      match v with
      | .v (.s path) =>
        match afind ctx.fs (pjoin pwd path) with
        | some fi => .ok (name, .v (.s fi.content))
        | none => .error .exits
      | _ => .error .exits
    else if opts.contains "djangofile" then
      match v with
      | .v (.s path) =>
        match afind ctx.fs (pjoin pwd path) with
        | some fi => .ok (name, .file path fi.size fi.mtime)
        | none => .error .exits
      | _ => .error .exits
    else .ok (name, v)

def streamlineAux (ctx : Ctx) (pwd : String) :
    List (String × FVal) → List (String × FVal) → Except MErr (List (String × FVal))
  | [], acc => .ok acc
  | (k, v) :: rest, acc =>
    match streamEntry ctx pwd k v with
    | .ok (k', v') => streamlineAux ctx pwd rest (dinsert acc k' v')
    | .error e => .error e

/-- Embedding of `Mapper.streamline_fields` (mom.py lines 395-422). -/
def streamline_fields (ctx : Ctx) (pwd : String) (fs : List (String × FVal)) :
    Except MErr (List (String × FVal)) :=
  streamlineAux ctx pwd fs []

/-- The `Remapper` object. -/
structure Remapper where
  lookup_fields : List String
  ownership : Ownership
  full_class_name : String
  lookup_fields_optional : Option (List String)

/-- Embedding of `Remapper.create_from` (mom.py lines 447-480). -/
def Remapper.create_from (ctx : Ctx) (rel : String) : Except MErr (Option Remapper) :=
  match afind ctx.remapping rel with
  | Option.none => .ok Option.none
  | some spec =>
    match spec.lookupField with
    | Option.none => .error .missingLookup
    | some lfs =>
      let lfo := spec.lookupFieldOptional.getD []
      match spec.ownership with
      | Option.none => .ok (some ⟨lfs, .none, rel, some lfo⟩)
      | some s =>
        match Ownership.ofString s with
        | some ow => .ok (some ⟨lfs, ow, rel, some lfo⟩)
        | Option.none => .error .exits

def filterAux (fields : List (String × FVal)) :
    List String → List (String × FVal) → Except MErr (List (String × FVal))
  | [], acc => .ok acc
  | lf :: rest, acc =>
    match afind fields lf with
    | some v => filterAux fields rest (dinsert acc lf v)
    | Option.none => .error .exits

def filterOptAux (fields : List (String × FVal)) :
    List String → List (String × FVal) → List (String × FVal)
  | [], acc => acc
  | lf :: rest, acc =>
    match afind fields lf, afind acc lf with
    | some v, Option.none => filterOptAux fields rest (dinsert acc lf v)
    | _, _ => filterOptAux fields rest acc

/-- Embedding of `Remapper.filter_lookup_fields` (mom.py lines 508-521). -/
def Remapper.filter_lookup_fields (rm : Remapper) (fields : List (String × FVal)) :
    Except MErr (List (String × FVal)) :=
  match filterAux fields rm.lookup_fields [] with
  | .error e => .error e
  | .ok acc =>
    match rm.lookup_fields_optional with
    | Option.none => .ok acc
    | some lfos => .ok (filterOptAux fields lfos acc)

/-- Embedding of `Remapper.prepare` (mom.py lines 482-506): wrap a
non-dict child value into a dict keyed by the single lookup field (or the
implicit lookup field), streamline it, and default the remapper. -/
def Remapper.prepare (ctx : Ctx) (pwd : String) (rm : Option Remapper) (rel : String)
    (childFields : FVal) : Except MErr (Remapper × List (String × FVal)) :=
  let wrapped : Except MErr (List (String × FVal)) :=
    match childFields with
    | .dict d => .ok d
    | v =>
      match rm with
      | some r =>
        if r.lookup_fields.length = 1 then .ok [(r.lookup_fields.headD "", v)]
        else .error .exits
      | Option.none =>
        match afind ctx.implicitLookup rel with
        | some lf => .ok [(lf, v)]
        | Option.none => .error .exits
  match wrapped with
  | .error e => .error e
  | .ok d =>
    match streamline_fields ctx pwd d with
    | .error e => .error e
    | .ok d' =>
      match rm with
      | some r => .ok (r, d')
      | Option.none => .ok (⟨d'.map Prod.fst, .none, rel, Option.none⟩, d')

/-- Values held in `field_diff`: the raw fixture value for non-relational
fields, a resolved related instance for foreign keys (its pk, or `None`),
and a list of resolved instances for many-to-many fields. -/
inductive DVal where
  | raw (v : FVal)
  | child (pk : Option Nat)
  | children (pks : List (Option Nat))

/-- Classification at mom.py line 358: lists and DjangoFile values are
secondary fields, everything else is primary. -/
def isSecondary : DVal → Bool
  | .raw (.list _) => true
  | .raw (.file _ _ _) => true
  | .children _ => true
  | _ => false

/-- Column value written by `setattr` / `objects.create` for a primary
diff entry. -/
def attrOfPrimary : DVal → Attr
  | .child p => .ref p
  | .raw v => .v v
  | .children _ => .many []

def setattrP (o : Obj) (k : String) (dv : DVal) : Obj :=
  { o with attrs := dinsert o.attrs k (attrOfPrimary dv) }

/-- All list members are resolved instances (Python would crash handing
`None` or a plain value to a related manager `.set`). -/
def allSome : List (Option Nat) → Option (List Nat)
  | [] => some []
  | some pk :: rest => (allSome rest).map (pk :: ·)
  | Option.none :: _ => Option.none

/-- Result of a stateful step: the database afterwards, the emitted ORM
events, and either a value or the propagated exception. -/
inductive MRes (α : Type) where
  | ok (db : DB) (evs : List Ev) (a : α)
  | err (db : DB) (evs : List Ev) (e : MErr)

/-- The `field_values is None` test of mom.py line 277. -/
def isNullF : FVal → Bool
  | .v .null => true
  | .v (.s _) => false
  | .v (.i _) => false
  | .v (.b _) => false
  | .file _ _ _ => false
  | .dict _ => false
  | .list _ => false

/-- Secondary field application (mom.py lines 369-375): DjangoFile values
are stored through `FieldFile.save` (which persists the instance, then
`os.utime` stamps the modification time); list values go through the
related manager `.set`. -/
def applySecondary (model : String) :
    List (String × DVal) → Obj → DB → MRes Obj
  | [], o, db => .ok db [] o
  | (k, v) :: rest, o, db =>
    match v with
    | .raw (.file n sz mt) =>
      match getattrA o k with
      | .file _ =>
        let o' := { o with attrs := dinsert o.attrs k (.file (some ⟨n, sz, mt, true⟩)) }
        let db' := dbSave db o'
        match applySecondary model rest o' db' with
        | .ok db2 evs o2 => .ok db2 (Ev.fileSave o.pk k :: evs) o2
        | .err db2 evs e => .err db2 (Ev.fileSave o.pk k :: evs) e
      | _ => .err db [] .badValue
    | .children ps =>
      match allSome ps with
      | some pks =>
        let o' := { o with attrs := dinsert o.attrs k (.many pks) }
        match applySecondary model rest o' db with
        | .ok db2 evs o2 => .ok db2 (Ev.m2mSet o.pk k :: evs) o2
        | .err db2 evs e => .err db2 (Ev.m2mSet o.pk k :: evs) e
      | Option.none => .err db [] .badValue
    | _ => .err db [] .badValue

/-- Embedding of the save block of `_start_mapping` (mom.py lines
351-383): with an empty diff nothing happens; otherwise split the diff
into primary and secondary fields, mutate the matched row in place when
updating with non-shared ownership or create a fresh row from the primary
fields, apply the secondary fields, and save. -/
def saveDiff (model : String) (updating : Bool) (ownership : Ownership)
    (fdiff : List (String × DVal)) (dbObj : Option Obj) (db : DB) : MRes (Option Obj) :=
  if fdiff.isEmpty then .ok db [] dbObj
  else
    let primary := fdiff.filter (fun kv => !isSecondary kv.2)
    let secondary := fdiff.filter (fun kv => isSecondary kv.2)
    let first : Except MErr (Obj × DB × List Ev) :=
      if updating && !(ownership == .shared) then
        match dbObj with
        | some o =>
          .ok (primary.foldl (fun a kv => setattrP a kv.1 kv.2) o, db,
               primary.map (fun kv => Ev.setA o.pk kv.1))
        | Option.none => .error .badValue
      else
        let (o, db') := dbCreate db model (primary.map (fun kv => (kv.1, attrOfPrimary kv.2)))
        .ok (o, db', [Ev.create model o.pk])
    match first with
    | .error e => .err db [] e
    | .ok (o0, db0, evs0) =>
      match applySecondary model secondary o0 db0 with
      | .err db1 evs1 e => .err db1 (evs0 ++ evs1) e
      | .ok db1 evs1 o1 =>
        .ok (dbSave db1 o1) (evs0 ++ evs1 ++ [Ev.save model o1.pk]) (some o1)

/-- One pass of the orphan loop (mom.py lines 329-334): refresh each
pre-existing member from the database (DoesNotExist if it vanished) and
delete the ones absent from the new list. -/
def orphanPass : List Nat → List (Option Nat) → DB → MRes Unit
  | [], _, db => .ok db [] ()
  | pk :: pks, lof, db =>
    match rowOf db pk with
    | Option.none => .err db [] .badValue
    | some _ =>
      if lof.contains (some pk) then orphanPass pks lof db
      else
        match orphanPass pks lof (dbDelete db pk) with
        | .ok db' evs u => .ok db' (Ev.delete pk :: evs) u
        | .err db' evs e => .err db' (Ev.delete pk :: evs) e

/-- Embedding of mom.py lines 327-336: when the resolved list is
non-empty and an update is needed, delete orphaned members when the outer
remapper declares single ownership, and record the list in the diff. -/
def m2mApply (rm : Option Remapper) (setm : Option (List Nat))
    (lof : List (Option Nat)) (should : Bool) (db : DB) : MRes (Option DVal) :=
  if !lof.isEmpty && should then
    match rm, setm with
    | some r, some pks =>
      if r.ownership == .single then
        match orphanPass pks lof db with
        | .err db' evs e => .err db' evs e
        | .ok db' evs _ => .ok db' evs (some (.children lof))
      else .ok db [] (some (.children lof))
    | _, _ => .ok db [] (some (.children lof))
  else .ok db [] Option.none

/-- The non-relational branch of the field loop (mom.py lines 277-301):
decide whether the field enters `field_diff`. A DjangoFile value on an
existing row is compared by file size and modification time; any other
value enters the diff exactly when the object is being created or the
fixture value differs from the current attribute value. -/
def scalarEntry (updating : Bool) (dbObj : Option Obj) (fname : String) (fval : FVal) :
    Except MErr (Option (String × DVal)) :=
  match updating, fval with
  | true, .file _ sz mt =>
    match getattrO dbObj fname with
    | .file Option.none => .ok (some (fname, .raw fval))
    | .file (some sf) =>
      if sf.onDisk && sz == sf.size && mt == sf.mtime then .ok Option.none
      else .ok (some (fname, .raw fval))
    | _ => .error .badValue
  | _, _ =>
    if !updating || !attrEqFVal (getattrO dbObj fname) fval then
      .ok (some (fname, .raw fval))
    else .ok Option.none

/-- The foreign-key re-read of mom.py lines 303-309: when updating, fetch
the currently related object of the parent row (`None` for a null column),
failing if it vanished; when creating there is nothing to read. -/
def fkLookup (updating : Bool) (dbObj : Option Obj) (fname : String) (db : DB) :
    Except MErr (Option Obj) :=
  if updating then
    match getattrO dbObj fname with
    | .ref Option.none => .ok Option.none
    | .ref (some q) =>
      match rowOf db q with
      | some r => .ok (some r)
      | Option.none => .error .badValue
    | .v (.v .null) => .ok Option.none
    | _ => .error .badValue
  else .ok Option.none

/-- The `set_m2m` read of mom.py lines 313-316: when updating, the current
member primary keys of the many-to-many relation on the refreshed row. -/
def m2mSet (updating : Bool) (dbObj : Option Obj) (fname : String) (db : DB) :
    Except MErr (Option (List Nat)) :=
  if updating then
    match dbObj with
    | some o =>
      match rowOf db o.pk with
      | some cur =>
        match getattrA cur fname with
        | .many pks => .ok (some pks)
        | _ => .error .badValue
      | Option.none => .error .badValue
    | Option.none => .error .badValue
  else .ok Option.none

mutual

/-- Embedding of `Mapper._start_mapping` (mom.py lines 236-383). The
boolean pair is the (ready, changed) result; the `Option Obj` is the
returned instance. -/
def startMapping : Nat → Ctx → String → String → List (String × FVal) →
    List (String × FVal) → Ownership → Option Obj → DB →
    MRes (Bool × Bool × Option Obj)
  | 0, _, _, _, _, _, _, _, db => .err db [] .fuelOut
  | fuel + 1, ctx, pwd, model, lookupFields, fields0, ownership, dbObj0, db =>
    match flatten_lookup_fields lookupFields with
    | .error e => .err db [] e
    | .ok flat =>
      match streamline_fields ctx pwd fields0 with
      | .error e => .err db [] e
      | .ok fields =>
        let qres : Except MErr (Bool × Option Obj) :=
          if dbObj0.isNone || ownership == .none then
            let q := dbFilter db model flat
            if 1 < q.length then .error .nonUnique
            else
              match q with
              | [r] => .ok (true, some r)
              | _ => .ok (false, Option.none)
          else .ok (true, dbObj0)
        match qres with
        | .error e => .err db [] e
        | .ok (updating, dbObj) =>
          if ownership == .none then
            if updating then .ok db [] (true, false, dbObj)
            else .ok db [] (false, false, Option.none)
          else
            match processFields fuel ctx pwd model updating dbObj fields db with
            | .err db' evs e => .err db' evs e
            | .ok db' evs Option.none => .ok db' evs (false, false, Option.none)
            | .ok db' evs (some fdiff) =>
              match saveDiff model updating ownership fdiff dbObj db' with
              | .err db2 evs2 e => .err db2 (evs ++ evs2) e
              | .ok db2 evs2 res => .ok db2 (evs ++ evs2) (true, !fdiff.isEmpty, res)
termination_by structural a0 a1 a2 a3 a4 a5 a6 a7 a8 => a0

/-- The field loop of `_start_mapping` (mom.py lines 275-349): returns
`none` when a related field is not ready (early return), otherwise the
accumulated `field_diff`. -/
def processFields : Nat → Ctx → String → String → Bool → Option Obj →
    List (String × FVal) → DB → MRes (Option (List (String × DVal)))
  | 0, _, _, _, _, _, _, db => .err db [] .fuelOut
  | _ + 1, _, _, _, _, _, [], db => .ok db [] (some [])
  | fuel + 1, ctx, pwd, model, updating, dbObj, (fname, fval) :: rest, db =>
    match ctx.getField model fname with
    | Option.none => .err db [] .badValue
    | some relOpt =>
      if relOpt.isNone || isNullF fval then
        match scalarEntry updating dbObj fname fval with
        | .error e => .err db [] e
        | .ok ent =>
          match processFields fuel ctx pwd model updating dbObj rest db with
          | .err db' evs e => .err db' evs e
          | .ok db' evs Option.none => .ok db' evs Option.none
          | .ok db' evs (some d) =>
            .ok db' evs (some (match ent with
              | some x => x :: d
              | Option.none => d))
      else
        let rel := relOpt.getD ""
        match Remapper.create_from ctx rel with
        | .error e => .err db [] e
        | .ok rm =>
          match fval with
          | .list items =>
            let setm : Except MErr (Option (List Nat)) :=
              if updating then
                match dbObj with
                | some o =>
                  match rowOf db o.pk with
                  | some cur =>
                    match getattrA cur fname with
                    | .many pks => .ok (some pks)
                    | _ => .error .badValue
                  | Option.none => .error .badValue
                | Option.none => .error .badValue
              else .ok Option.none
            match setm with
            | .error e => .err db [] e
            | .ok set_m2m =>
              let even := updating && (set_m2m.getD []).length == items.length
              match processM2MList fuel ctx pwd rel rm set_m2m even items db with
              | .err db' evs e => .err db' evs e
              | .ok db' evs Option.none => .ok db' evs Option.none
              | .ok db' evs (some (lof, should)) =>
                match m2mApply rm set_m2m lof should db' with
                | .err db2 evs2 e => .err db2 (evs ++ evs2) e
                | .ok db2 evs2 ent =>
                  match processFields fuel ctx pwd model updating dbObj rest db2 with
                  | .err db3 evs3 e => .err db3 (evs ++ evs2 ++ evs3) e
                  | .ok db3 evs3 Option.none => .ok db3 (evs ++ evs2 ++ evs3) Option.none
                  | .ok db3 evs3 (some d) =>
                    .ok db3 (evs ++ evs2 ++ evs3) (some (match ent with
                      | some dv => (fname, dv) :: d
                      | Option.none => d))
          | _ =>
            match Remapper.prepare ctx pwd rm rel fval with
            | .error e => .err db [] e
            | .ok (rm', cf) =>
              match rm'.filter_lookup_fields cf with
              | .error e => .err db [] e
              | .ok clfRaw =>
                match flatten_lookup_fields clfRaw with
                | .error e => .err db [] e
                | .ok clf =>
                  let fko : Except MErr (Option Obj) :=
                    if updating then
                      match getattrO dbObj fname with
                      | .ref Option.none => .ok Option.none
                      | .ref (some q) =>
                        match rowOf db q with
                        | some r => .ok (some r)
                        | Option.none => .error .badValue
                      | .v (.v .null) => .ok Option.none
                      | _ => .error .badValue
                    else .ok Option.none
                  match fko with
                  | .error e => .err db [] e
                  | .ok fkObj =>
                    match startMapping fuel ctx pwd rel clf cf rm'.ownership fkObj db with
                    | .err db' evs e => .err db' evs e
                    | .ok db' evs (false, _, _) => .ok db' evs Option.none
                    | .ok db' evs (true, chgd, cobj) =>
                      let ent : Option (String × DVal) :=
                        if !updating || chgd || !objOptBeq cobj fkObj then
                          some (fname, .child (cobj.map (fun o => o.pk)))
                        else Option.none
                      match processFields fuel ctx pwd model updating dbObj rest db' with
                      | .err db2 evs2 e => .err db2 (evs ++ evs2) e
                      | .ok db2 evs2 Option.none => .ok db2 (evs ++ evs2) Option.none
                      | .ok db2 evs2 (some d) =>
                        .ok db2 (evs ++ evs2) (some (match ent with
                          | some x => x :: d
                          | Option.none => d))
termination_by structural a0 a1 a2 a3 a4 a5 a6 a7 => a0

/-- The many-to-many child loop of `_start_mapping` (mom.py lines
310-325): resolve each member recursively, abort with `none` when a
member is not ready, and accumulate the resolved list together with the
`should_update` flag. -/
def processM2MList : Nat → Ctx → String → String → Option Remapper →
    Option (List Nat) → Bool → List FVal → DB →
    MRes (Option (List (Option Nat) × Bool))
  | 0, _, _, _, _, _, _, _, db => .err db [] .fuelOut
  | _ + 1, _, _, _, _, _, _, [], db => .ok db [] (some ([], false))
  | fuel + 1, ctx, pwd, rel, rm, setm, even, item :: items, db =>
    match Remapper.prepare ctx pwd rm rel item with
    | .error e => .err db [] e
    | .ok (rm_l, cf) =>
      match rm_l.filter_lookup_fields cf with
      | .error e => .err db [] e
      | .ok clfRaw =>
        match flatten_lookup_fields clfRaw with
        | .error e => .err db [] e
        | .ok clf =>
          match startMapping fuel ctx pwd rel clf cf rm_l.ownership Option.none db with
          | .err db' evs e => .err db' evs e
          | .ok db' evs (false, _, _) => .ok db' evs Option.none
          | .ok db' evs (true, chgd, cobj) =>
            let upd := !even || chgd ||
              !(match cobj, setm with
                | some o, some pks => pks.contains o.pk
                | _, _ => false)
            match processM2MList fuel ctx pwd rel rm setm even items db' with
            | .err db2 evs2 e => .err db2 (evs ++ evs2) e
            | .ok db2 evs2 Option.none => .ok db2 (evs ++ evs2) Option.none
            | .ok db2 evs2 (some (lof, should)) =>
              .ok db2 (evs ++ evs2) (some ((cobj.map (fun o => o.pk)) :: lof, upd || should))
termination_by structural a0 a1 a2 a3 a4 a5 a6 a7 a8 => a0

end

mutual

/-- The database row matched by the lookup already equals the fixture's
field values (claim C1's antecedent): the lookup resolves to exactly one
row, every plain column equals the fixture scalar, every DjangoFile value
matches the stored file's size and modification time, every foreign key
points at a row that recursively equals its nested fixture, and every
many-to-many list resolves member-wise into the current relation with
matching lengths. Returns the instance `_start_mapping` would return.
The fuel is consumed in lockstep with `startMapping`. -/
def utdStart : Nat → Ctx → String → String → List (String × FVal) →
    List (String × FVal) → Ownership → Option Obj → DB → Option (Option Obj)
  | 0, _, _, _, _, _, _, _, _ => Option.none
  | fuel + 1, ctx, pwd, model, lookupFields, fields0, ownership, dbObj0, db =>
    match flatten_lookup_fields lookupFields with
    | .error _ => Option.none
    | .ok flat =>
      match streamline_fields ctx pwd fields0 with
      | .error _ => Option.none
      | .ok fields =>
        match (if dbObj0.isNone || ownership == .none then
                 match dbFilter db model flat with
                 | [r] => some r
                 | _ => Option.none
               else dbObj0) with
        | Option.none => Option.none
        | some r =>
          if ownership == .none then some (some r)
          else if utdFields fuel ctx pwd model r fields db then some (some r)
          else Option.none
termination_by structural a0 a1 a2 a3 a4 a5 a6 a7 a8 => a0

/-- Every field of the fixture dict is already reflected by row `r`. -/
def utdFields : Nat → Ctx → String → String → Obj → List (String × FVal) → DB → Bool
  | 0, _, _, _, _, _, _ => false
  | _ + 1, _, _, _, _, [], _ => true
  | fuel + 1, ctx, pwd, model, r, (fname, fval) :: rest, db =>
    match ctx.getField model fname with
    | Option.none => false
    | some relOpt =>
      if relOpt.isNone || isNullF fval then
        (match fval with
         | .file _ sz mt =>
           match getattrA r fname with
           | .file (some sf) => sf.onDisk && sz == sf.size && mt == sf.mtime
           | _ => false
         | _ => attrEqFVal (getattrA r fname) fval) &&
        utdFields fuel ctx pwd model r rest db
      else
        let rel := relOpt.getD ""
        match Remapper.create_from ctx rel with
        | .error _ => false
        | .ok rm =>
          match fval with
          | .list items =>
            (match rowOf db r.pk with
             | some cur =>
               match getattrA cur fname with
               | .many pks =>
                 (items.isEmpty || pks.length == items.length) &&
                   utdList fuel ctx pwd rel rm pks items db
               | _ => false
             | Option.none => false) &&
            utdFields fuel ctx pwd model r rest db
          | _ =>
            match Remapper.prepare ctx pwd rm rel fval with
            | .error _ => false
            | .ok (rm', cf) =>
              match rm'.filter_lookup_fields cf with
              | .error _ => false
              | .ok clfRaw =>
                match flatten_lookup_fields clfRaw with
                | .error _ => false
                | .ok clf =>
                  match (match getattrA r fname with
                         | .ref Option.none => some Option.none
                         | .v (.v .null) => some Option.none
                         | .ref (some q) => (rowOf db q).map some
                         | _ => Option.none) with
                  | Option.none => false
                  | some fkObj =>
                    match utdStart fuel ctx pwd rel clf cf rm'.ownership fkObj db with
                    | Option.none => false
                    | some res =>
                      objOptBeq res fkObj && utdFields fuel ctx pwd model r rest db
termination_by structural a0 a1 a2 a3 a4 a5 a6 => a0

/-- Every member of a many-to-many fixture list is itself up to date and
already belongs to the current relation contents `pks`. -/
def utdList : Nat → Ctx → String → String → Option Remapper → List Nat →
    List FVal → DB → Bool
  | 0, _, _, _, _, _, _, _ => false
  | _ + 1, _, _, _, _, _, [], _ => true
  | fuel + 1, ctx, pwd, rel, rm, pks, item :: items, db =>
    match Remapper.prepare ctx pwd rm rel item with
    | .error _ => false
    | .ok (rm_l, cf) =>
      match rm_l.filter_lookup_fields cf with
      | .error _ => false
      | .ok clfRaw =>
        match flatten_lookup_fields clfRaw with
        | .error _ => false
        | .ok clf =>
          match utdStart fuel ctx pwd rel clf cf rm_l.ownership Option.none db with
          | some (some o) => pks.contains o.pk && utdList fuel ctx pwd rel rm pks items db
          | _ => false
termination_by structural a0 a1 a2 a3 a4 a5 a6 a7 => a0

end

/-- Outcome of `mom_run` (mom.py lines 535-559): the `while` loop either
breaks normally or reports the unloaded mappers and exits with status 1. -/
inductive RunOut (M : Type) where
  | success
  | failed (fails : List M)

/-- State after one `for mapper in mappers` pass. -/
structure PassOut (W M : Type) where
  ms : List (Bool × M)
  w : W
  succ : Bool
  miss : Bool

/-- One pass of the `for` loop in `mom_run` (mom.py lines 539-546): walk
the mapper list left to right, skip loaded mappers, attempt the rest with
`start_mapping` (abstracted as `step`, which threads the surrounding
world `W` and reports whether the mapper loaded), record whether any
attempt succeeded and whether any mapper was still missing. -/
def runPass {W M : Type} (step : W → M → Bool × W) :
    List (Bool × M) → W → PassOut W M
  | [], w => ⟨[], w, false, false⟩
  | (ld, m) :: rest, w =>
    if ld then
      let r := runPass step rest w
      ⟨(ld, m) :: r.ms, r.w, r.succ, r.miss⟩
    else
      let bw := step w m
      let r := runPass step rest bw.2
      ⟨(bw.1, m) :: r.ms, r.w, r.succ || bw.1, true⟩

/-- Number of mappers not yet loaded. -/
def countUnloaded {M : Type} (ms : List (Bool × M)) : Nat :=
  (ms.filter (fun p => !p.1)).length

/-- The `while True` retry loop of `mom_run` (mom.py lines 535-558),
fuel-indexed: when a pass still misses mappers and loaded none, log every
unloaded mapper and `exit(1)`; when it misses some but loaded at least
one, run another pass; when nothing was missing, `break` successfully. -/
def momLoop {W M : Type} (step : W → M → Bool × W) :
    Nat → List (Bool × M) → W → Option (RunOut M × List (Bool × M) × W)
  | 0, _, _ => Option.none
  | Nat.succ fuel, ms, w =>
    let r := runPass step ms w
    if r.miss then
      if r.succ then momLoop step fuel r.ms r.w
      else some (RunOut.failed ((r.ms.filter (fun p => !p.1)).map (fun p => p.2)),
                 r.ms, r.w)
    else some (RunOut.success, r.ms, r.w)

/-- The character class of `KEY_PATTERN` (mom.py line 18): `[a-zA-Z0-9-_]`. -/
def classChar (c : Char) : Bool :=
  decide ('a' ≤ c ∧ c ≤ 'z') || decide ('A' ≤ c ∧ c ≤ 'Z') ||
    decide ('0' ≤ c ∧ c ≤ '9') || c == '-' || c == '_'

/-- Match a regex fragment in which a `.` matches any single character and
every other character is literal — the way `MOM_FILE` and the separator
dots occur, unescaped, in `FILE_PATTERN_FULL` and `FILE_PATTERN_FOLDER`
(mom.py lines 19-20). -/
def dotsMatch : List Char → List Char → Bool
  | [], [] => true
  | pc :: ps, c :: cs => (pc == '.' || pc == c) && dotsMatch ps cs
  | _, _ => false

/-- `re.findall(FILE_PATTERN_FULL, name)` (mom.py lines 19, 197): the
anchored pattern `^KEY.KEY.MOM_FILE$` with unescaped dots; the trailing
`MOM_FILE` part has fixed length, so only the first group's length is
searched, longest first as the greedy engine does. -/
def momFull (momFile name : String) : Option (String × String) :=
  let s := name.data
  let p := momFile.data
  let n := s.length
  (((List.range (n - p.length - 2)).map (fun i => i + 1)).reverse).findSome? (fun l1 =>
    let l2 := n - p.length - 2 - l1
    let g1 := s.take l1
    let g2 := (s.drop (l1 + 1)).take l2
    let tl := s.drop (n - p.length)
    if !(l2 == 0) && g1.all classChar && g2.all classChar && dotsMatch p tl
    then some (⟨g1⟩, ⟨g2⟩) else Option.none)

/-- `re.findall(FILE_PATTERN_FOLDER, name)` (mom.py lines 20, 218):
`^KEY.MOM_FILE$` with unescaped dots; every length is forced. -/
def momFolder (momFile name : String) : Option String :=
  let s := name.data
  let p := momFile.data
  let n := s.length
  let l1 := n - p.length - 1
  let g1 := s.take l1
  let tl := s.drop (n - p.length)
  if !(l1 == 0) && g1.all classChar && dotsMatch p tl then some ⟨g1⟩ else Option.none

/-- `len(re.findall(FILE_PATTERN_PRIVATE, name)) == 1` (mom.py lines 21,
206, 213): the whole name is a nonempty run of key characters. -/
def momPriv (name : String) : Bool :=
  !name.data.isEmpty && name.data.all classChar

/-- A directory listing as `load_mappers_from` walks it. -/
inductive FSEntry where
  | file (name : String)
  | dir (name : String) (children : List FSEntry)

/-- The arguments of one `Mapper.load_from` call recorded by
`load_mappers_from`. -/
structure MSrc where
  model : String
  mapName : String
  pwd : String
  file : String
deriving DecidableEq

/-- One child of a matched top-level directory (mom.py lines 209-226): a
child directory whose name is a key run yields a mapper rooted inside it
with `MOM_FILE` as the file — whether or not that file exists; a child
file yields a mapper when it matches `FILE_PATTERN_FOLDER`. -/
def mapperOfChild (model mainPath momFile : String) : FSEntry → List MSrc
  | .dir cname _ =>
    if momPriv cname then [⟨model, cname, pjoin mainPath cname, momFile⟩]
    else []
  | .file cname =>
    match momFolder momFile cname with
    | some mapName => [⟨model, mapName, mainPath, cname⟩]
    | Option.none => []

/-- One top-level entry of the fixture folder (mom.py lines 193-226). -/
def mapperOfEntry (mapping : List String) (folder momFile : String) : FSEntry → List MSrc
  | .file name =>
    (match momFull momFile name with
     | some (model, mapName) =>
       if mapping.contains model then [⟨model, mapName, folder, name⟩] else []
     | Option.none => [])
  | .dir dname children =>
    if momPriv dname && mapping.contains dname then
      (children.map (mapperOfChild dname (pjoin folder dname) momFile)).flatten
    else []

/-- Embedding of `Mapper.load_mappers_from` (mom.py lines 190-226); the
mapping is abstracted to its list of model keys. -/
def loadMappersFrom (mapping : List String) (folder momFile : String)
    (entries : List FSEntry) : List MSrc :=
  (entries.map (mapperOfEntry mapping folder momFile)).flatten

/-- A small concrete world used by the witnesses: model `L` (language,
plain fields code/name), model `P` (post, plain slug, foreign key `lang`
to L, many-to-many `tags` to T), model `T` (tag, plain slug). `L` is
remapped with shared ownership, `T` with single ownership. -/
def ctxW : Ctx :=
  { getField := fun m f =>
      if m = "L" then (if f = "code" || f = "name" then some Option.none else Option.none)
      else if m = "P" then
        (if f = "slug" then some Option.none
         else if f = "lang" then some (some "L")
         else if f = "tags" then some (some "T")
         else if f = "extra" then some (some "X")
         else Option.none)
      else if m = "T" then (if f = "slug" then some Option.none else Option.none)
      else Option.none,
    remapping := [("L", ⟨some ["code"], Option.none, some "shared"⟩),
                  ("T", ⟨some ["slug"], Option.none, some "single"⟩)],
    implicitLookup := [],
    fs := [] }

def rowL : Obj := ⟨0, "L", [("code", .v (.v (.s "en"))), ("name", .v (.v (.s "English")))]⟩
def rowTa : Obj := ⟨1, "T", [("slug", .v (.v (.s "a")))]⟩
def rowTb : Obj := ⟨2, "T", [("slug", .v (.v (.s "b")))]⟩
def rowP : Obj :=
  ⟨3, "P", [("slug", .v (.v (.s "p1"))), ("lang", .ref (some 0)), ("tags", .many [1, 2])]⟩

def dbW : DB := ⟨[rowL, rowTa, rowTb, rowP], 4⟩

/-- A fixture tree whose values all already equal the database contents. -/
def pfixW : List (String × FVal) :=
  [("slug", .v (.s "p1")),
   ("lang", .dict [("code", .v (.s "en")), ("name", .v (.s "English"))]),
   ("tags", .list [.v (.s "a"), .v (.s "b")])]

/-- The database row created for the C8 scenario: updating `rowL` through a
SHARED remapper with a one-field diff mints a fresh row instead of touching
`rowL`. -/
def row8 : Obj := ⟨4, "L", [("name", .v (.v (.s "Anglais")))]⟩

def db8 : DB := ⟨[rowL, rowTa, rowTb, rowP, row8], 5⟩

/-- Coarse unfolding of `utdFields` on a cons cell; holds by definition. -/
theorem utdFields_cons (fuel : Nat) (ctx : Ctx) (pwd model : String) (r : Obj)
    (fname : String) (fval : FVal) (rest : List (String × FVal)) (db : DB) :
    utdFields (fuel + 1) ctx pwd model r ((fname, fval) :: rest) db =
      (match ctx.getField model fname with
      | Option.none => false
      | some relOpt =>
        if relOpt.isNone || isNullF fval then
          (match fval with
           | .file _ sz mt =>
             match getattrA r fname with
             | .file (some sf) => sf.onDisk && sz == sf.size && mt == sf.mtime
             | _ => false
           | _ => attrEqFVal (getattrA r fname) fval) &&
          utdFields fuel ctx pwd model r rest db
        else
          let rel := relOpt.getD ""
          match Remapper.create_from ctx rel with
          | .error _ => false
          | .ok rm =>
            match fval with
            | .list items =>
              (match rowOf db r.pk with
               | some cur =>
                 match getattrA cur fname with
                 | .many pks =>
                   (items.isEmpty || pks.length == items.length) &&
                     utdList fuel ctx pwd rel rm pks items db
                 | _ => false
               | Option.none => false) &&
              utdFields fuel ctx pwd model r rest db
            | _ =>
              match Remapper.prepare ctx pwd rm rel fval with
              | .error _ => false
              | .ok (rm', cf) =>
                match rm'.filter_lookup_fields cf with
                | .error _ => false
                | .ok clfRaw =>
                  match flatten_lookup_fields clfRaw with
                  | .error _ => false
                  | .ok clf =>
                    match (match getattrA r fname with
                           | .ref Option.none => some Option.none
                           | .v (.v .null) => some Option.none
                           | .ref (some q) => (rowOf db q).map some
                           | _ => Option.none) with
                    | Option.none => false
                    | some fkObj =>
                      match utdStart fuel ctx pwd rel clf cf rm'.ownership fkObj db with
                      | Option.none => false
                      | some res =>
                        objOptBeq res fkObj && utdFields fuel ctx pwd model r rest db) := rfl

/-- Coarse unfolding of `processFields` on a dict-valued related field;
the foreign-key re-read is the let of mom.py lines 303-309, named
`fkLookup`. Holds by definition. -/
theorem processFields_cons_fk (fuel : Nat) (ctx : Ctx) (pwd model : String) (updating : Bool)
    (dbObj : Option Obj) (fname : String) (cfs : List (String × FVal))
    (rest : List (String × FVal)) (db : DB) :
    processFields (fuel + 1) ctx pwd model updating dbObj
        ((fname, FVal.dict cfs) :: rest) db =
      (match ctx.getField model fname with
      | Option.none => .err db [] .badValue
      | some relOpt =>
        if relOpt.isNone || isNullF (FVal.dict cfs) then
          match scalarEntry updating dbObj fname (FVal.dict cfs) with
          | .error e => .err db [] e
          | .ok ent =>
            match processFields fuel ctx pwd model updating dbObj rest db with
            | .err db' evs e => .err db' evs e
            | .ok db' evs Option.none => .ok db' evs Option.none
            | .ok db' evs (some d) =>
              .ok db' evs (some (match ent with
                | some x => x :: d
                | Option.none => d))
        else
          let rel := relOpt.getD ""
          match Remapper.create_from ctx rel with
          | .error e => .err db [] e
          | .ok rm =>
            match Remapper.prepare ctx pwd rm rel (FVal.dict cfs) with
            | .error e => .err db [] e
            | .ok (rm', cf) =>
              match rm'.filter_lookup_fields cf with
              | .error e => .err db [] e
              | .ok clfRaw =>
                match flatten_lookup_fields clfRaw with
                | .error e => .err db [] e
                | .ok clf =>
                  match fkLookup updating dbObj fname db with
                  | .error e => .err db [] e
                  | .ok fkObj =>
                    match startMapping fuel ctx pwd rel clf cf rm'.ownership fkObj db with
                    | .err db' evs e => .err db' evs e
                    | .ok db' evs (false, _, _) => .ok db' evs Option.none
                    | .ok db' evs (true, chgd, cobj) =>
                      let ent : Option (String × DVal) :=
                        if !updating || chgd || !objOptBeq cobj fkObj then
                          some (fname, .child (cobj.map (fun o => o.pk)))
                        else Option.none
                      match processFields fuel ctx pwd model updating dbObj rest db' with
                      | .err db2 evs2 e => .err db2 (evs ++ evs2) e
                      | .ok db2 evs2 Option.none => .ok db2 (evs ++ evs2) Option.none
                      | .ok db2 evs2 (some d) =>
                        .ok db2 (evs ++ evs2) (some (match ent with
                          | some x => x :: d
                          | Option.none => d))) := rfl

/-- Coarse unfolding of `processFields` on a list-valued related field;
the `set_m2m` read is the let of mom.py lines 313-316, named `m2mSet`.
Holds by definition. -/
theorem processFields_cons_m2m (fuel : Nat) (ctx : Ctx) (pwd model : String) (updating : Bool)
    (dbObj : Option Obj) (fname : String) (ms : List FVal)
    (rest : List (String × FVal)) (db : DB) :
    processFields (fuel + 1) ctx pwd model updating dbObj
        ((fname, FVal.list ms) :: rest) db =
      (match ctx.getField model fname with
      | Option.none => .err db [] .badValue
      | some relOpt =>
        if relOpt.isNone || isNullF (FVal.list ms) then
          match scalarEntry updating dbObj fname (FVal.list ms) with
          | .error e => .err db [] e
          | .ok ent =>
            match processFields fuel ctx pwd model updating dbObj rest db with
            | .err db' evs e => .err db' evs e
            | .ok db' evs Option.none => .ok db' evs Option.none
            | .ok db' evs (some d) =>
              .ok db' evs (some (match ent with
                | some x => x :: d
                | Option.none => d))
        else
          let rel := relOpt.getD ""
          match Remapper.create_from ctx rel with
          | .error e => .err db [] e
          | .ok rm =>
            match m2mSet updating dbObj fname db with
            | .error e => .err db [] e
            | .ok set_m2m =>
              let even := updating && (set_m2m.getD []).length == ms.length
              match processM2MList fuel ctx pwd rel rm set_m2m even ms db with
              | .err db' evs e => .err db' evs e
              | .ok db' evs Option.none => .ok db' evs Option.none
              | .ok db' evs (some (lof, should)) =>
                match m2mApply rm set_m2m lof should db' with
                | .err db2 evs2 e => .err db2 (evs ++ evs2) e
                | .ok db2 evs2 ent =>
                  match processFields fuel ctx pwd model updating dbObj rest db2 with
                  | .err db3 evs3 e => .err db3 (evs ++ evs2 ++ evs3) e
                  | .ok db3 evs3 Option.none => .ok db3 (evs ++ evs2 ++ evs3) Option.none
                  | .ok db3 evs3 (some d) =>
                    .ok db3 (evs ++ evs2 ++ evs3) (some (match ent with
                      | some dv => (fname, dv) :: d
                      | Option.none => d))) := rfl

/-- Coarse unfolding of `processFields` on a cons cell; holds by
definition. -/
theorem processFields_cons (fuel : Nat) (ctx : Ctx) (pwd model : String) (updating : Bool)
    (dbObj : Option Obj) (fname : String) (fval : FVal) (rest : List (String × FVal))
    (db : DB) :
    processFields (fuel + 1) ctx pwd model updating dbObj ((fname, fval) :: rest) db =
      (match ctx.getField model fname with
      | Option.none => .err db [] .badValue
      | some relOpt =>
        if relOpt.isNone || isNullF fval then
          match scalarEntry updating dbObj fname fval with
          | .error e => .err db [] e
          | .ok ent =>
            match processFields fuel ctx pwd model updating dbObj rest db with
            | .err db' evs e => .err db' evs e
            | .ok db' evs Option.none => .ok db' evs Option.none
            | .ok db' evs (some d) =>
              .ok db' evs (some (match ent with
                | some x => x :: d
                | Option.none => d))
        else
          let rel := relOpt.getD ""
          match Remapper.create_from ctx rel with
          | .error e => .err db [] e
          | .ok rm =>
            match fval with
            | .list items =>
              let setm : Except MErr (Option (List Nat)) :=
                if updating then
                  match dbObj with
                  | some o =>
                    match rowOf db o.pk with
                    | some cur =>
                      match getattrA cur fname with
                      | .many pks => .ok (some pks)
                      | _ => .error .badValue
                    | Option.none => .error .badValue
                  | Option.none => .error .badValue
                else .ok Option.none
              match setm with
              | .error e => .err db [] e
              | .ok set_m2m =>
                let even := updating && (set_m2m.getD []).length == items.length
                match processM2MList fuel ctx pwd rel rm set_m2m even items db with
                | .err db' evs e => .err db' evs e
                | .ok db' evs Option.none => .ok db' evs Option.none
                | .ok db' evs (some (lof, should)) =>
                  match m2mApply rm set_m2m lof should db' with
                  | .err db2 evs2 e => .err db2 (evs ++ evs2) e
                  | .ok db2 evs2 ent =>
                    match processFields fuel ctx pwd model updating dbObj rest db2 with
                    | .err db3 evs3 e => .err db3 (evs ++ evs2 ++ evs3) e
                    | .ok db3 evs3 Option.none => .ok db3 (evs ++ evs2 ++ evs3) Option.none
                    | .ok db3 evs3 (some d) =>
                      .ok db3 (evs ++ evs2 ++ evs3) (some (match ent with
                        | some dv => (fname, dv) :: d
                        | Option.none => d))
            | _ =>
              match Remapper.prepare ctx pwd rm rel fval with
              | .error e => .err db [] e
              | .ok (rm', cf) =>
                match rm'.filter_lookup_fields cf with
                | .error e => .err db [] e
                | .ok clfRaw =>
                  match flatten_lookup_fields clfRaw with
                  | .error e => .err db [] e
                  | .ok clf =>
                    let fko : Except MErr (Option Obj) :=
                      if updating then
                        match getattrO dbObj fname with
                        | .ref Option.none => .ok Option.none
                        | .ref (some q) =>
                          match rowOf db q with
                          | some r => .ok (some r)
                          | Option.none => .error .badValue
                        | .v (.v .null) => .ok Option.none
                        | _ => .error .badValue
                      else .ok Option.none
                    match fko with
                    | .error e => .err db [] e
                    | .ok fkObj =>
                      match startMapping fuel ctx pwd rel clf cf rm'.ownership fkObj db with
                      | .err db' evs e => .err db' evs e
                      | .ok db' evs (false, _, _) => .ok db' evs Option.none
                      | .ok db' evs (true, chgd, cobj) =>
                        let ent : Option (String × DVal) :=
                          if !updating || chgd || !objOptBeq cobj fkObj then
                            some (fname, .child (cobj.map (fun o => o.pk)))
                          else Option.none
                        match processFields fuel ctx pwd model updating dbObj rest db' with
                        | .err db2 evs2 e => .err db2 (evs ++ evs2) e
                        | .ok db2 evs2 Option.none => .ok db2 (evs ++ evs2) Option.none
                        | .ok db2 evs2 (some d) =>
                          .ok db2 (evs ++ evs2) (some (match ent with
                            | some x => x :: d
                            | Option.none => d))) := rfl

theorem saveDiff_nil (model : String) (updating : Bool) (own : Ownership)
    (dbObj : Option Obj) (db : DB) :
    saveDiff model updating own [] dbObj db = .ok db [] dbObj := rfl

/-- Coarse unfolding of `m2mApply`; holds by definition. -/
theorem m2mApply_def (rm : Option Remapper) (setm : Option (List Nat))
    (lof : List (Option Nat)) (should : Bool) (db : DB) :
    m2mApply rm setm lof should db =
      (if !lof.isEmpty && should then
        match rm, setm with
        | some r, some pks =>
          if r.ownership == .single then
            match orphanPass pks lof db with
            | .err db' evs e => .err db' evs e
            | .ok db' evs _ => .ok db' evs (some (.children lof))
          else .ok db [] (some (.children lof))
        | _, _ => .ok db [] (some (.children lof))
      else .ok db [] Option.none) := rfl

/-- Soundness of the up-to-date predicate: on an up-to-date input,
`_start_mapping` performs no database write, emits no ORM event, and
returns ready and unchanged with the resolved instance; similarly for the
field loop (empty diff) and the many-to-many loop (no update needed). -/
theorem utdSound : ∀ fuel : Nat,
    (∀ ctx pwd model lkps flds own dbObj0 db res,
      utdStart fuel ctx pwd model lkps flds own dbObj0 db = some res →
      startMapping fuel ctx pwd model lkps flds own dbObj0 db =
        .ok db [] (true, false, res)) ∧
    (∀ ctx pwd model r flds db,
      utdFields fuel ctx pwd model r flds db = true →
      processFields fuel ctx pwd model true (some r) flds db = .ok db [] (some [])) ∧
    (∀ ctx pwd rel rm pks items db,
      utdList fuel ctx pwd rel rm pks items db = true →
      ∃ lof, processM2MList fuel ctx pwd rel rm (some pks) true items db =
        .ok db [] (some (lof, false))) := by
  intro fuel
  induction fuel with
  | zero =>
    refine ⟨fun _ _ _ _ _ _ _ _ _ h => ?_, fun _ _ _ _ _ _ h => ?_,
            fun _ _ _ _ _ _ _ h => ?_⟩ <;> simp [utdStart, utdFields, utdList] at h
  | succ fuel ih =>
    obtain ⟨ihA, ihB, ihC⟩ := ih
    refine ⟨?_, ?_, ?_⟩
    · -- startMapping
      intro ctx pwd model lkps flds own dbObj0 db res h
      rw [utdStart] at h
      rw [startMapping]
      cases hf : flatten_lookup_fields lkps with
      | error e => rw [hf] at h; simp at h
      | ok flat =>
        rw [hf] at h
        simp only at h ⊢
        cases hs : streamline_fields ctx pwd flds with
        | error e => rw [hs] at h; simp at h
        | ok fields =>
          rw [hs] at h
          simp only at h ⊢
          by_cases hcond : (dbObj0.isNone || own == Ownership.none) = true
          · rw [if_pos hcond] at h
            rw [if_pos hcond]
            cases hq : dbFilter db model flat with
            | nil => rw [hq] at h; simp at h
            | cons r0 tl =>
              cases tl with
              | cons r1 tl' => rw [hq] at h; simp at h
              | nil =>
                rw [hq] at h
                simp only [List.length_cons, List.length_nil] at h ⊢
                norm_num
                by_cases hn : own == Ownership.none
                · rw [if_pos hn] at h ⊢
                  simp only [Option.some.injEq] at h
                  simp [← h]
                · rw [if_neg hn] at h ⊢
                  cases hu : utdFields fuel ctx pwd model r0 fields db with
                  | false => rw [hu] at h; simp at h
                  | true =>
                    rw [hu] at h
                    simp only [if_true, Option.some.injEq] at h
                    rw [ihB ctx pwd model r0 fields db hu]
                    simp [saveDiff_nil, ← h]
          · have hor : (dbObj0.isNone || own == Ownership.none) = false :=
              Bool.eq_false_iff.mpr hcond
            obtain ⟨hn1, hno⟩ := Bool.or_eq_false_iff.mp hor
            rw [if_neg hcond] at h
            rw [if_neg hcond]
            cases dbObj0 with
            | none => simp at hn1
            | some o =>
              simp only at h ⊢
              simp only [hno, Bool.false_eq_true, if_false] at h ⊢
              cases hu : utdFields fuel ctx pwd model o fields db with
              | false => rw [hu] at h; simp at h
              | true =>
                rw [hu] at h
                simp only [if_true, Option.some.injEq] at h
                rw [ihB ctx pwd model o fields db hu]
                simp [saveDiff_nil, ← h]
    · -- processFields
      intro ctx pwd model r flds db h
      induction flds with
      | nil => rfl
      | cons hd rest _ =>
        obtain ⟨fname, fval⟩ := hd
        rw [utdFields_cons] at h
        rw [processFields_cons]
        cases hgf : ctx.getField model fname with
        | none => rw [hgf] at h; simp at h
        | some relOpt =>
          simp only [hgf] at h ⊢
          cases relOpt with
          | none =>
            cases fval
            case file n sz mt =>
              simp only [isNullF, Option.isNone_none, Bool.true_or, eq_self_iff_true,
                if_true] at h ⊢
              rw [Bool.and_eq_true] at h
              obtain ⟨hval, hrest⟩ := h
              cases hga : getattrA r fname with
              | file sf =>
                cases sf with
                | none => simp [hga] at hval
                | some sf0 =>
                  rw [hga] at hval
                  obtain ⟨⟨h1, h2⟩, h3⟩ : (sf0.onDisk = true ∧ sz = sf0.size) ∧ mt = sf0.mtime := by
                    simpa using hval
                  simp [scalarEntry, getattrO, hga, h1, h2, h3,
                    ihB ctx pwd model r rest db hrest]
              | v x => simp [hga] at hval
              | ref p => simp [hga] at hval
              | many pks => simp [hga] at hval
            all_goals
              simp only [isNullF, Option.isNone_none, Bool.true_or, eq_self_iff_true,
                if_true] at h ⊢
            all_goals rw [Bool.and_eq_true] at h
            all_goals obtain ⟨hval, hrest⟩ := h
            all_goals simp [scalarEntry, getattrO, hval, ihB ctx pwd model r rest db hrest]
          | some rel =>
            cases fval
            case v x =>
              cases x
              case null =>
                simp only [isNullF, Option.isNone_some, Bool.false_or, eq_self_iff_true,
                  if_true, Option.getD_some] at h ⊢
                rw [Bool.and_eq_true] at h
                obtain ⟨hval, hrest⟩ := h
                simp [scalarEntry, getattrO, hval, ihB ctx pwd model r rest db hrest]
              all_goals
                simp only [isNullF, Option.isNone_some, Bool.false_or, Bool.false_eq_true,
                  if_false, Option.getD_some] at h ⊢
              all_goals
                cases hcr : Remapper.create_from ctx rel with
                | error e => simp [hcr] at h
                | ok rm =>
                  simp only [hcr] at h
                  split at h
                  next => simp at h
                  next rm' cf hpre =>
                    split at h
                    next => simp at h
                    next clfRaw hfl =>
                      split at h
                      next => simp at h
                      next clf hfl2 =>
                        cases hga : getattrA r fname with
                        | ref p =>
                          cases p with
                          | none =>
                            simp only [hga] at h
                            cases hc : utdStart fuel ctx pwd rel clf cf rm'.ownership
                                Option.none db with
                            | none => rw [hc] at h; simp at h
                            | some cres =>
                              rw [hc] at h
                              rw [Bool.and_eq_true] at h
                              obtain ⟨hbeq, hrest⟩ := h
                              simp [getattrO, hcr, hpre, hfl, hfl2, hga, hbeq,
                                ihA ctx pwd rel clf cf rm'.ownership Option.none db cres hc,
                                ihB ctx pwd model r rest db hrest]
                          | some q =>
                            simp only [hga] at h
                            cases hrq : rowOf db q with
                            | none => simp [hrq] at h
                            | some fo =>
                              simp only [hrq, Option.map_some'] at h
                              cases hc : utdStart fuel ctx pwd rel clf cf rm'.ownership
                                  (some fo) db with
                              | none => rw [hc] at h; simp at h
                              | some cres =>
                                rw [hc] at h
                                rw [Bool.and_eq_true] at h
                                obtain ⟨hbeq, hrest⟩ := h
                                simp [getattrO, hcr, hpre, hfl, hfl2, hga, hrq, hbeq,
                                  ihA ctx pwd rel clf cf rm'.ownership (some fo) db cres hc,
                                  ihB ctx pwd model r rest db hrest]
                        | v w =>
                          cases w
                          case v xv =>
                            cases xv
                            case null =>
                              simp only [hga] at h
                              cases hc : utdStart fuel ctx pwd rel clf cf rm'.ownership
                                  Option.none db with
                              | none => rw [hc] at h; simp at h
                              | some cres =>
                                rw [hc] at h
                                rw [Bool.and_eq_true] at h
                                obtain ⟨hbeq, hrest⟩ := h
                                simp [getattrO, hcr, hpre, hfl, hfl2, hga, hbeq,
                                  ihA ctx pwd rel clf cf rm'.ownership Option.none db cres hc,
                                  ihB ctx pwd model r rest db hrest]
                            all_goals simp [hga] at h
                          all_goals simp [hga] at h
                        | many pks => simp [hga] at h
                        | file f => simp [hga] at h
            case list items =>
              simp only [isNullF, Option.isNone_some, Bool.false_or, Bool.false_eq_true,
                if_false, Option.getD_some] at h ⊢
              cases hcr : Remapper.create_from ctx rel with
              | error e => simp [hcr] at h
              | ok rm =>
                simp only [hcr] at h
                rw [Bool.and_eq_true] at h
                obtain ⟨hm2m, hrest⟩ := h
                cases hrow : rowOf db r.pk with
                | none => simp [hrow] at hm2m
                | some cur =>
                  simp only [hrow] at hm2m
                  cases hga : getattrA cur fname with
                  | many pks =>
                    simp only [hga] at hm2m
                    rw [Bool.and_eq_true] at hm2m
                    obtain ⟨hlen, hlist⟩ := hm2m
                    cases items with
                    | nil =>
                      cases fuel with
                      | zero => simp [utdList] at hlist
                      | succ fuel' =>
                        simp [hcr, hrow, hga, processM2MList, m2mApply,
                          ihB ctx pwd model r rest db hrest]
                    | cons it its =>
                      have hlen2 : pks.length = its.length + 1 := by simpa using hlen
                      obtain ⟨lof, hpl⟩ := ihC ctx pwd rel rm pks (it :: its) db hlist
                      simp [hcr, hrow, hga, hlen2, hpl, m2mApply,
                        ihB ctx pwd model r rest db hrest]
                  | v x => simp [hga] at hm2m
                  | ref p => simp [hga] at hm2m
                  | file f => simp [hga] at hm2m
            all_goals
              simp only [isNullF, Option.isNone_some, Bool.false_or, Bool.false_eq_true,
                if_false, Option.getD_some] at h ⊢
            all_goals
              cases hcr : Remapper.create_from ctx rel with
              | error e => simp [hcr] at h
              | ok rm =>
                simp only [hcr] at h
                split at h
                next => simp at h
                next rm' cf hpre =>
                  split at h
                  next => simp at h
                  next clfRaw hfl =>
                    split at h
                    next => simp at h
                    next clf hfl2 =>
                      cases hga : getattrA r fname with
                      | ref p =>
                        cases p with
                        | none =>
                          simp only [hga] at h
                          cases hc : utdStart fuel ctx pwd rel clf cf rm'.ownership
                              Option.none db with
                          | none => rw [hc] at h; simp at h
                          | some cres =>
                            rw [hc] at h
                            rw [Bool.and_eq_true] at h
                            obtain ⟨hbeq, hrest⟩ := h
                            simp [getattrO, hcr, hpre, hfl, hfl2, hga, hbeq,
                              ihA ctx pwd rel clf cf rm'.ownership Option.none db cres hc,
                              ihB ctx pwd model r rest db hrest]
                        | some q =>
                          simp only [hga] at h
                          cases hrq : rowOf db q with
                          | none => simp [hrq] at h
                          | some fo =>
                            simp only [hrq, Option.map_some'] at h
                            cases hc : utdStart fuel ctx pwd rel clf cf rm'.ownership
                                (some fo) db with
                            | none => rw [hc] at h; simp at h
                            | some cres =>
                              rw [hc] at h
                              rw [Bool.and_eq_true] at h
                              obtain ⟨hbeq, hrest⟩ := h
                              simp [getattrO, hcr, hpre, hfl, hfl2, hga, hrq, hbeq,
                                ihA ctx pwd rel clf cf rm'.ownership (some fo) db cres hc,
                                ihB ctx pwd model r rest db hrest]
                      | v w =>
                        cases w
                        case v xv =>
                          cases xv
                          case null =>
                            simp only [hga] at h
                            cases hc : utdStart fuel ctx pwd rel clf cf rm'.ownership
                                Option.none db with
                            | none => rw [hc] at h; simp at h
                            | some cres =>
                              rw [hc] at h
                              rw [Bool.and_eq_true] at h
                              obtain ⟨hbeq, hrest⟩ := h
                              simp [getattrO, hcr, hpre, hfl, hfl2, hga, hbeq,
                                ihA ctx pwd rel clf cf rm'.ownership Option.none db cres hc,
                                ihB ctx pwd model r rest db hrest]
                          all_goals simp [hga] at h
                        all_goals simp [hga] at h
                      | many pks => simp [hga] at h
                      | file f => simp [hga] at h
    · -- processM2MList
      intro ctx pwd rel rm pks items db h
      induction items with
      | nil =>
        exact ⟨[], rfl⟩
      | cons it its _ =>
        rw [utdList] at h
        rw [processM2MList]
        cases hpre : Remapper.prepare ctx pwd rm rel it with
        | error e => rw [hpre] at h; simp at h
        | ok pr =>
          obtain ⟨rm_l, cf⟩ := pr
          rw [hpre] at h
          simp only at h ⊢
          cases hfl : rm_l.filter_lookup_fields cf with
          | error e => rw [hfl] at h; simp at h
          | ok clfRaw =>
            rw [hfl] at h
            simp only at h ⊢
            cases hfl2 : flatten_lookup_fields clfRaw with
            | error e => rw [hfl2] at h; simp at h
            | ok clf =>
              rw [hfl2] at h
              simp only at h ⊢
              cases hc : utdStart fuel ctx pwd rel clf cf rm_l.ownership Option.none db with
              | none => rw [hc] at h; simp at h
              | some cres =>
                rw [hc] at h
                cases cres with
                | none => simp at h
                | some o =>
                  rw [Bool.and_eq_true] at h
                  obtain ⟨hmem, hrest⟩ := h
                  have hchild := ihA ctx pwd rel clf cf rm_l.ownership Option.none db
                    (some o) hc
                  obtain ⟨lof, hpl⟩ := ihC ctx pwd rel rm pks its db hrest
                  have hmem' : o.pk ∈ pks := by simpa using hmem
                  refine ⟨some o.pk :: lof, ?_⟩
                  rw [hchild]
                  simp [hpl, hmem']


/-! Claim theorems. -/

/-- C1: reconciliation is idempotent per object. For every object whose
database row already equals the fixture's field values (`utdStart`
resolves the lookup to exactly one row and every field, related object
and many-to-many member is already reflected), `_start_mapping` computes
an empty field diff, performs no create, save or delete (the event trace
is empty and the database is returned unchanged), and returns
`(True, False, existing_row)`; hence applying the same fixture tree a
second time changes no database state. -/
theorem C1_reconcile_idempotent (fuel : Nat) (ctx : Ctx) (pwd model : String)
    (lkps flds : List (String × FVal)) (own : Ownership) (dbObj : Option Obj)
    (db : DB) (res : Option Obj)
    (h : utdStart fuel ctx pwd model lkps flds own dbObj db = some res) :
    startMapping fuel ctx pwd model lkps flds own dbObj db =
      MRes.ok db [] (true, false, res) :=
  (utdSound fuel).1 ctx pwd model lkps flds own dbObj db res h

/-- Witness for C1 on the concrete world: the post fixture is up to date
and a second `_start_mapping` run returns ready and unchanged with the
existing row, no events and the same database. -/
theorem C1_reconcile_idempotent_witness :
    startMapping 10 ctxW "w" "P" [("slug", .v (.s "p1"))] pfixW .single Option.none dbW =
      MRes.ok dbW [] (true, false, some rowP) := by
  have h : utdStart 10 ctxW "w" "P" [("slug", .v (.s "p1"))] pfixW .single Option.none dbW =
      some (some rowP) := rfl
  exact C1_reconcile_idempotent 10 ctxW "w" "P" [("slug", .v (.s "p1"))] pfixW .single
    Option.none dbW (some rowP) h

/-- C5: with ownership NONE, `_start_mapping` never writes to the
database: with exactly one matching row it returns
`(True, False, that_row)`, with no matching row it returns
`(False, False, None)`; in both cases the database is unchanged and no
ORM event is emitted. -/
theorem C5_ownership_none_never_writes (fuel : Nat) (ctx : Ctx) (pwd model : String)
    (lkps flds : List (String × FVal)) (dbObj0 : Option Obj) (db : DB)
    (flat fields : List (String × FVal))
    (hf : flatten_lookup_fields lkps = .ok flat)
    (hs : streamline_fields ctx pwd flds = .ok fields) :
    (∀ r, dbFilter db model flat = [r] →
      startMapping (fuel + 1) ctx pwd model lkps flds .none dbObj0 db =
        MRes.ok db [] (true, false, some r)) ∧
    (dbFilter db model flat = [] →
      startMapping (fuel + 1) ctx pwd model lkps flds .none dbObj0 db =
        MRes.ok db [] (false, false, Option.none)) := by
  constructor
  · intro r hq
    rw [startMapping, hf, hs]
    simp [hq, (show (Ownership.none == Ownership.none) = true from rfl)]
  · intro hq
    rw [startMapping, hf, hs]
    simp [hq, (show (Ownership.none == Ownership.none) = true from rfl)]

/-- Witness for C5: a fresh lookup on the concrete world, once matching
the post row and once matching nothing. -/
theorem C5_ownership_none_never_writes_witness :
    startMapping 10 ctxW "w" "P" [("slug", .v (.s "p1"))] pfixW .none Option.none dbW =
      MRes.ok dbW [] (true, false, some rowP) ∧
    startMapping 10 ctxW "w" "P" [("slug", .v (.s "zz"))] pfixW .none Option.none dbW =
      MRes.ok dbW [] (false, false, Option.none) := by
  have h1 : flatten_lookup_fields [("slug", FVal.v (Val.s "p1"))] =
      Except.ok [("slug", FVal.v (Val.s "p1"))] := rfl
  have h1' : flatten_lookup_fields [("slug", FVal.v (Val.s "zz"))] =
      Except.ok [("slug", FVal.v (Val.s "zz"))] := rfl
  have h2 : streamline_fields ctxW "w" pfixW = Except.ok pfixW := rfl
  have hq1 : dbFilter dbW "P" [("slug", FVal.v (Val.s "p1"))] = [rowP] := rfl
  have hq2 : dbFilter dbW "P" [("slug", FVal.v (Val.s "zz"))] = [] := rfl
  exact ⟨(C5_ownership_none_never_writes 9 ctxW "w" "P" [("slug", .v (.s "p1"))] pfixW
      Option.none dbW [("slug", .v (.s "p1"))] pfixW h1 h2).1 rowP hq1,
   (C5_ownership_none_never_writes 9 ctxW "w" "P" [("slug", .v (.s "zz"))] pfixW
      Option.none dbW [("slug", .v (.s "zz"))] pfixW h1' h2).2 hq2⟩

/-- C9: when the lookup is performed (no reusable instance was passed or
ownership is NONE) and the filter matches more than one row,
`_start_mapping` raises NonUniqueFieldException before computing any
field diff, leaving the database unchanged with no ORM event. -/
theorem C9_non_unique_raises (fuel : Nat) (ctx : Ctx) (pwd model : String)
    (lkps flds : List (String × FVal)) (own : Ownership) (dbObj0 : Option Obj)
    (db : DB) (flat fields : List (String × FVal))
    (hf : flatten_lookup_fields lkps = .ok flat)
    (hs : streamline_fields ctx pwd flds = .ok fields)
    (hpath : (dbObj0.isNone || own == Ownership.none) = true)
    (hq : 2 ≤ (dbFilter db model flat).length) :
    startMapping (fuel + 1) ctx pwd model lkps flds own dbObj0 db =
      MRes.err db [] .nonUnique := by
  rw [startMapping, hf, hs]
  simp [hpath, (by omega : 1 < (dbFilter db model flat).length)]

/-- Witness for C9: two tag rows share the same slug value. -/
theorem C9_non_unique_raises_witness :
    startMapping 8 ctxW "w" "T" [("slug", .v (.s "dup"))] [] .single Option.none
      ⟨[⟨7, "T", [("slug", .v (.v (.s "dup")))]⟩, ⟨8, "T", [("slug", .v (.v (.s "dup")))]⟩], 9⟩ =
      MRes.err ⟨[⟨7, "T", [("slug", .v (.v (.s "dup")))]⟩,
                 ⟨8, "T", [("slug", .v (.v (.s "dup")))]⟩], 9⟩ [] .nonUnique := by
  have h1 : flatten_lookup_fields [("slug", FVal.v (Val.s "dup"))] =
      Except.ok [("slug", FVal.v (Val.s "dup"))] := rfl
  have h2 : streamline_fields ctxW "w" ([] : List (String × FVal)) = Except.ok [] := rfl
  have hq : 2 ≤ (dbFilter ⟨[⟨7, "T", [("slug", .v (.v (.s "dup")))]⟩,
      ⟨8, "T", [("slug", .v (.v (.s "dup")))]⟩], 9⟩ "T"
      [("slug", FVal.v (Val.s "dup"))]).length := by
    have : (dbFilter ⟨[⟨7, "T", [("slug", .v (.v (.s "dup")))]⟩,
        ⟨8, "T", [("slug", .v (.v (.s "dup")))]⟩], 9⟩ "T"
        [("slug", FVal.v (Val.s "dup"))]).length = 2 := rfl
    omega
  exact C9_non_unique_raises 7 ctxW "w" "T" [("slug", .v (.s "dup"))] [] .single Option.none
    _ [("slug", .v (.s "dup"))] [] h1 h2 rfl hq

/-- C4: field changes are diff-computed against the existing row. A
non-relational field with a plain value enters `field_diff` exactly when
the object is being created or the fixture value differs from the current
attribute value (`scalarEntry` is the decision the field loop applies to
each non-relational field); and when `field_diff` is empty, the save
block performs no setattr, create or save: the database and the row are
returned untouched with no ORM event. -/
theorem C4_diff_against_existing_row :
    (∀ (updating : Bool) (dbObj : Option Obj) (fname : String) (x : Val)
        (ent : Option (String × DVal)),
      scalarEntry updating dbObj fname (.v x) = .ok ent →
      (ent = some (fname, .raw (.v x)) ↔
        (updating = false ∨ attrEqFVal (getattrO dbObj fname) (.v x) = false))) ∧
    (∀ (model : String) (updating : Bool) (own : Ownership) (dbObj : Option Obj) (db : DB),
      saveDiff model updating own [] dbObj db = MRes.ok db [] dbObj) := by
  constructor
  · intro updating dbObj fname x ent h
    cases updating with
    | false =>
      simp only [scalarEntry, Bool.not_false, Bool.true_or, if_true] at h
      cases h
      simp
    | true =>
      simp only [scalarEntry, Bool.not_true, Bool.false_or] at h
      cases hA : attrEqFVal (getattrO dbObj fname) (FVal.v x) with
      | true => rw [hA] at h; simp at h; subst h; simp [hA]
      | false => rw [hA] at h; simp at h; subst h; simp [hA]
  · intro model updating own dbObj db
    exact saveDiff_nil model updating own dbObj db

/-- Witness for C4: a field whose stored value differs from the fixture
value enters the diff, and the empty diff leaves the world untouched. -/
theorem C4_diff_against_existing_row_witness :
    (some ("name", DVal.raw (FVal.v (Val.s "x"))) : Option (String × DVal)) =
      some ("name", DVal.raw (FVal.v (Val.s "x"))) ∧
    saveDiff "L" true Ownership.single [] (some rowL) dbW = MRes.ok dbW [] (some rowL) :=
  ⟨(C4_diff_against_existing_row.1 true (some rowL) "name" (Val.s "x")
      (some ("name", DVal.raw (FVal.v (Val.s "x")))) rfl).mpr (Or.inr rfl),
   C4_diff_against_existing_row.2 "L" true Ownership.single (some rowL) dbW⟩

/-- C6: related-object resolution is atomic with respect to the parent,
end to end. If the recursive `_start_mapping` call for a dict-valued
foreign-key field (first conjunct) or for a member of a many-to-many list
(second conjunct) returns not-ready (first component `false`), the
enclosing `_start_mapping` — having reached the field loop on the query
path, whether it found an existing row (updating) or none (creating) —
returns `(false, false, none)` with exactly the child's database and
event trace: the parent object is neither created nor saved. -/
theorem C6_related_not_ready_aborts :
    (∀ (fuel : Nat) (ctx : Ctx) (pwd model : String)
        (lkps flds : List (String × FVal)) (own : Ownership)
        (flat : List (String × FVal)) (upd : Bool) (pobj : Option Obj)
        (fname rel : String) (cfs rest : List (String × FVal))
        (rm : Option Remapper) (rm' : Remapper) (cf clfRaw clf : List (String × FVal))
        (fkObj : Option Obj) (db db2 : DB) (evs2 : List Ev) (c : Bool) (o : Option Obj),
      flatten_lookup_fields lkps = .ok flat →
      streamline_fields ctx pwd flds = .ok ((fname, FVal.dict cfs) :: rest) →
      (own == Ownership.none) = false →
      ((∃ r, dbFilter db model flat = [r] ∧ upd = true ∧ pobj = some r) ∨
        (dbFilter db model flat = [] ∧ upd = false ∧ pobj = Option.none)) →
      ctx.getField model fname = some (some rel) →
      Remapper.create_from ctx rel = .ok rm →
      Remapper.prepare ctx pwd rm rel (FVal.dict cfs) = .ok (rm', cf) →
      rm'.filter_lookup_fields cf = .ok clfRaw →
      flatten_lookup_fields clfRaw = .ok clf →
      fkLookup upd pobj fname db = .ok fkObj →
      startMapping fuel ctx pwd rel clf cf rm'.ownership fkObj db =
        MRes.ok db2 evs2 (false, c, o) →
      startMapping (fuel + 2) ctx pwd model lkps flds own Option.none db =
        MRes.ok db2 evs2 (false, false, Option.none)) ∧
    (∀ (fuel : Nat) (ctx : Ctx) (pwd model : String)
        (lkps flds : List (String × FVal)) (own : Ownership)
        (flat : List (String × FVal)) (upd : Bool) (pobj : Option Obj)
        (fname rel : String) (cfs : List (String × FVal)) (items : List FVal)
        (rest : List (String × FVal)) (rm : Option Remapper)
        (set_m2m : Option (List Nat)) (rm_l : Remapper)
        (cf clfRaw clf : List (String × FVal))
        (db db2 : DB) (evs2 : List Ev) (c : Bool) (o : Option Obj),
      flatten_lookup_fields lkps = .ok flat →
      streamline_fields ctx pwd flds =
        .ok ((fname, FVal.list (FVal.dict cfs :: items)) :: rest) →
      (own == Ownership.none) = false →
      ((∃ r, dbFilter db model flat = [r] ∧ upd = true ∧ pobj = some r) ∨
        (dbFilter db model flat = [] ∧ upd = false ∧ pobj = Option.none)) →
      ctx.getField model fname = some (some rel) →
      Remapper.create_from ctx rel = .ok rm →
      m2mSet upd pobj fname db = .ok set_m2m →
      Remapper.prepare ctx pwd rm rel (FVal.dict cfs) = .ok (rm_l, cf) →
      rm_l.filter_lookup_fields cf = .ok clfRaw →
      flatten_lookup_fields clfRaw = .ok clf →
      startMapping fuel ctx pwd rel clf cf rm_l.ownership Option.none db =
        MRes.ok db2 evs2 (false, c, o) →
      startMapping (fuel + 3) ctx pwd model lkps flds own Option.none db =
        MRes.ok db2 evs2 (false, false, Option.none)) := by
  constructor
  · intro fuel ctx pwd model lkps flds own flat upd pobj fname rel cfs rest rm rm'
      cf clfRaw clf fkObj db db2 evs2 c o hf hs hno hbr hgf hcr hpre hflt hfl2 hfk hchild
    have hpf : processFields (fuel + 1) ctx pwd model upd pobj
        ((fname, FVal.dict cfs) :: rest) db = MRes.ok db2 evs2 Option.none := by
      rw [processFields_cons_fk]
      simp [hgf, isNullF, hcr, hpre, hflt, hfl2, hfk, hchild]
    rcases hbr with ⟨r, hq, hupd, hpobj⟩ | ⟨hq, hupd, hpobj⟩
    · subst hupd
      subst hpobj
      rw [startMapping, hf, hs]
      simp [hno, hq, hpf]
    · subst hupd
      subst hpobj
      rw [startMapping, hf, hs]
      simp [hno, hq, hpf]
  · intro fuel ctx pwd model lkps flds own flat upd pobj fname rel cfs items rest rm
      set_m2m rm_l cf clfRaw clf db db2 evs2 c o hf hs hno hbr hgf hcr hset hpre
      hflt hfl2 hchild
    have hm2mAll : ∀ even, processM2MList (fuel + 1) ctx pwd rel rm set_m2m even
        (FVal.dict cfs :: items) db = MRes.ok db2 evs2 Option.none := by
      intro even
      rw [processM2MList]
      simp [hpre, hflt, hfl2, hchild]
    have hpf : processFields (fuel + 2) ctx pwd model upd pobj
        ((fname, FVal.list (FVal.dict cfs :: items)) :: rest) db =
        MRes.ok db2 evs2 Option.none := by
      rw [processFields_cons_m2m]
      simp [hgf, isNullF, hcr, hset, hm2mAll]
    rcases hbr with ⟨r, hq, hupd, hpobj⟩ | ⟨hq, hupd, hpobj⟩
    · subst hupd
      subst hpobj
      rw [startMapping, hf, hs]
      simp [hno, hq, hpf]
    · subst hupd
      subst hpobj
      rw [startMapping, hf, hs]
      simp [hno, hq, hpf]

/-- Witness for C6, both conjuncts end to end in the concrete world.
First: updating post `rowP` (its `slug` lookup matches) whose `extra`
foreign-key field points at the unmapped model `X` with no matching row:
the child resolves to not-ready and the whole `_start_mapping` returns
`(false, false, none)` with `dbW` untouched and no events. Second: the
creating path (no `slug` match) with `extra` as a many-to-many list whose
first member is not ready. -/
theorem C6_related_not_ready_aborts_witness :
    startMapping 11 ctxW "w" "P" [("slug", FVal.v (Val.s "p1"))]
        [("extra", FVal.dict [("k", FVal.v (Val.s "z"))])]
        Ownership.single Option.none dbW =
      MRes.ok dbW [] (false, false, Option.none) ∧
    startMapping 12 ctxW "w" "P" [("slug", FVal.v (Val.s "nope"))]
        [("extra", FVal.list [FVal.dict [("k", FVal.v (Val.s "z"))]])]
        Ownership.single Option.none dbW =
      MRes.ok dbW [] (false, false, Option.none) := by
  constructor
  · have hchild : startMapping 9 ctxW "w" "X" [("k", FVal.v (Val.s "z"))]
        [("k", FVal.v (Val.s "z"))] Ownership.none Option.none dbW =
        MRes.ok dbW [] (false, false, Option.none) := rfl
    have hbr : (∃ r, dbFilter dbW "P" [("slug", FVal.v (Val.s "p1"))] = [r] ∧
        true = true ∧ (some rowP : Option Obj) = some r) ∨
        (dbFilter dbW "P" [("slug", FVal.v (Val.s "p1"))] = [] ∧
          true = false ∧ (some rowP : Option Obj) = Option.none) :=
      Or.inl ⟨rowP, rfl, rfl, rfl⟩
    have hfk : fkLookup true (some rowP) "extra" dbW = .ok Option.none := rfl
    exact C6_related_not_ready_aborts.1 9 ctxW "w" "P"
      [("slug", FVal.v (Val.s "p1"))]
      [("extra", FVal.dict [("k", FVal.v (Val.s "z"))])] Ownership.single
      [("slug", FVal.v (Val.s "p1"))] true (some rowP) "extra" "X"
      [("k", FVal.v (Val.s "z"))] [] Option.none
      ⟨["k"], Ownership.none, "X", Option.none⟩
      [("k", FVal.v (Val.s "z"))] [("k", FVal.v (Val.s "z"))]
      [("k", FVal.v (Val.s "z"))] Option.none dbW dbW [] false Option.none
      rfl rfl rfl hbr rfl rfl rfl rfl rfl hfk hchild
  · have hchild : startMapping 9 ctxW "w" "X" [("k", FVal.v (Val.s "z"))]
        [("k", FVal.v (Val.s "z"))] Ownership.none Option.none dbW =
        MRes.ok dbW [] (false, false, Option.none) := rfl
    have hbr : (∃ r, dbFilter dbW "P" [("slug", FVal.v (Val.s "nope"))] = [r] ∧
        false = true ∧ (Option.none : Option Obj) = some r) ∨
        (dbFilter dbW "P" [("slug", FVal.v (Val.s "nope"))] = [] ∧
          false = false ∧ (Option.none : Option Obj) = Option.none) :=
      Or.inr ⟨rfl, rfl, rfl⟩
    have hset : m2mSet false Option.none "extra" dbW = .ok Option.none := rfl
    exact C6_related_not_ready_aborts.2 9 ctxW "w" "P"
      [("slug", FVal.v (Val.s "nope"))]
      [("extra", FVal.list [FVal.dict [("k", FVal.v (Val.s "z"))]])]
      Ownership.single [("slug", FVal.v (Val.s "nope"))] false Option.none
      "extra" "X" [("k", FVal.v (Val.s "z"))] [] [] Option.none Option.none
      ⟨["k"], Ownership.none, "X", Option.none⟩
      [("k", FVal.v (Val.s "z"))] [("k", FVal.v (Val.s "z"))]
      [("k", FVal.v (Val.s "z"))] dbW dbW [] false Option.none
      rfl rfl rfl hbr rfl rfl hset rfl rfl rfl hchild

/-- Deleting a row removes it. -/
theorem find_filter_ne (l : List Obj) (pk : Nat) :
    (l.filter (fun r => r.pk ≠ pk)).find? (fun o => o.pk = pk) = Option.none := by
  induction l with
  | nil => rfl
  | cons r t ih =>
    rw [List.filter_cons]
    by_cases h : r.pk = pk
    · rw [if_neg (by simp [h])]
      exact ih
    · rw [if_pos (by simp [h])]
      rw [List.find?_cons_of_neg _ (by simp [h])]
      exact ih

theorem dbDelete_rowOf_self (db : DB) (pk : Nat) :
    rowOf (dbDelete db pk) pk = Option.none := by
  simpa [rowOf, dbDelete] using find_filter_ne db.objs pk

theorem find_filter_keep (l : List Obj) (pk q : Nat) (hq : q ≠ pk) :
    (l.filter (fun r => r.pk ≠ pk)).find? (fun o => o.pk = q) =
      l.find? (fun o => o.pk = q) := by
  induction l with
  | nil => rfl
  | cons r t ih =>
    rw [List.filter_cons]
    by_cases h : r.pk = pk
    · rw [if_neg (by simp [h])]
      rw [List.find?_cons_of_neg _ (by simp [h, Ne.symm hq])]
      exact ih
    · rw [if_pos (by simp [h])]
      by_cases h2 : r.pk = q
      · rw [List.find?_cons_of_pos _ (by simp [h2]), List.find?_cons_of_pos _ (by simp [h2])]
      · rw [List.find?_cons_of_neg _ (by simp [h2]), List.find?_cons_of_neg _ (by simp [h2])]
        exact ih

theorem dbDelete_rowOf_ne (db : DB) (pk q : Nat) (hq : q ≠ pk) :
    rowOf (dbDelete db pk) q = rowOf db q := by
  simpa [rowOf, dbDelete] using find_filter_keep db.objs pk q hq

/-- The orphan loop touches only rows whose pk is in its member list. -/
theorem orphanPass_frame : ∀ (pks : List Nat) (lof : List (Option Nat)) (db db' : DB)
    (evs : List Ev) (u : Unit), orphanPass pks lof db = .ok db' evs u →
    ∀ q, q ∉ pks → rowOf db' q = rowOf db q := by
  intro pks
  induction pks with
  | nil =>
    intro lof db db' evs u h q _
    cases h
    rfl
  | cons pk t ih =>
    intro lof db db' evs u h q hq
    rw [orphanPass] at h
    have hqpk : q ≠ pk := fun hcontra => hq (hcontra ▸ List.mem_cons_self pk t)
    have hqt : q ∉ t := fun hmem => hq (List.mem_cons_of_mem pk hmem)
    cases hrow : rowOf db pk with
    | none => rw [hrow] at h; exact absurd h (by simp)
    | some r0 =>
      rw [hrow] at h
      simp only at h
      by_cases hc : lof.contains (some pk) = true
      · rw [if_pos hc] at h
        exact ih lof db db' evs u h q hqt
      · rw [if_neg hc] at h
        cases hrec : orphanPass t lof (dbDelete db pk) with
        | ok db2 evs2 u2 =>
          rw [hrec] at h
          simp only [MRes.ok.injEq] at h
          obtain ⟨hdb, _, _⟩ := h
          subst hdb
          rw [ih lof (dbDelete db pk) db2 evs2 u2 hrec q hqt]
          exact dbDelete_rowOf_ne db pk q hqpk
        | err db2 evs2 e => rw [hrec] at h; exact absurd h (by simp)

/-- The orphan loop deletes exactly the members absent from the new list
and leaves the retained members' rows untouched. -/
theorem orphanPass_spec : ∀ (pks : List Nat) (lof : List (Option Nat)) (db db' : DB)
    (evs : List Ev) (u : Unit), pks.Nodup →
    orphanPass pks lof db = .ok db' evs u →
    ∀ pk ∈ pks,
      (lof.contains (some pk) = false → rowOf db' pk = Option.none ∧ Ev.delete pk ∈ evs) ∧
      (lof.contains (some pk) = true → rowOf db' pk = rowOf db pk) := by
  intro pks
  induction pks with
  | nil =>
    intro lof db db' evs u _ _ pk hmem
    exact absurd hmem (List.not_mem_nil pk)
  | cons pk0 t ih =>
    intro lof db db' evs u hnd h pk hmem
    rw [orphanPass] at h
    obtain ⟨hnotin, hndt⟩ := List.nodup_cons.mp hnd
    cases hrow : rowOf db pk0 with
    | none => rw [hrow] at h; exact absurd h (by simp)
    | some r0 =>
      rw [hrow] at h
      simp only at h
      by_cases hc : lof.contains (some pk0) = true
      · rw [if_pos hc] at h
        rcases List.mem_cons.mp hmem with heq | hmemt
        · subst heq
          refine ⟨fun hfalse => ?_, fun _ => ?_⟩
          · rw [hfalse] at hc
            exact absurd hc (by simp)
          · exact orphanPass_frame t lof db db' evs u h pk hnotin
        · exact ih lof db db' evs u hndt h pk hmemt
      · rw [if_neg hc] at h
        cases hrec : orphanPass t lof (dbDelete db pk0) with
        | ok db2 evs2 u2 =>
          rw [hrec] at h
          simp only [MRes.ok.injEq] at h
          obtain ⟨hdb, hevs, _⟩ := h
          subst hdb
          rcases List.mem_cons.mp hmem with heq | hmemt
          · subst heq
            constructor
            · intro _
              constructor
              · rw [orphanPass_frame t lof (dbDelete db pk) db2 evs2 u2 hrec pk hnotin]
                exact dbDelete_rowOf_self db pk
              · rw [← hevs]
                exact List.mem_cons_self _ _
            · intro htrue
              exact absurd htrue (by simpa using hc)
          · have hres := ih lof (dbDelete db pk0) db2 evs2 u2 hndt hrec pk hmemt
            have hpkne : pk ≠ pk0 := fun hcontra => hnotin (hcontra ▸ hmemt)
            constructor
            · intro hfalse
              obtain ⟨h1, h2⟩ := (hres).1 hfalse
              exact ⟨h1, by rw [← hevs]; exact List.mem_cons_of_mem _ h2⟩
            · intro htrue
              rw [(hres).2 htrue]
              exact dbDelete_rowOf_ne db pk0 pk hpkne
        | err db2 evs2 e => rw [hrec] at h; exact absurd h (by simp)

/-- C2: ownership rules for many-to-many updates. With SINGLE ownership
every pre-existing member of the relation absent from the resolved list
is deleted from the database (and a delete event recorded) while retained
members' rows are untouched; with SHARED ownership the update block never
deletes anything (database unchanged, no events); an empty resolved list
never deletes anything either. -/
theorem C2_m2m_ownership_rules :
    (∀ (r : Remapper) (pks : List Nat) (lof : List (Option Nat)) (db db' : DB)
        (evs : List Ev) (ent : Option DVal),
      r.ownership = .single → pks.Nodup → lof ≠ [] →
      m2mApply (some r) (some pks) lof true db = .ok db' evs ent →
      ∀ pk ∈ pks,
        (lof.contains (some pk) = false → rowOf db' pk = Option.none ∧ Ev.delete pk ∈ evs) ∧
        (lof.contains (some pk) = true → rowOf db' pk = rowOf db pk)) ∧
    (∀ (r : Remapper) (setm : Option (List Nat)) (lof : List (Option Nat))
        (should : Bool) (db : DB),
      r.ownership = .shared →
      ∃ ent, m2mApply (some r) setm lof should db = .ok db [] ent) ∧
    (∀ (rm : Option Remapper) (setm : Option (List Nat)) (should : Bool) (db : DB),
      m2mApply rm setm [] should db = .ok db [] Option.none) := by
  refine ⟨?_, ?_, ?_⟩
  · intro r pks lof db db' evs ent hown hnd hne h
    rw [m2mApply] at h
    have hguard : (!lof.isEmpty && true) = true := by
      simp [List.isEmpty_iff, hne]
    rw [hguard] at h
    simp only [if_true, hown] at h
    simp only [show (Ownership.single == Ownership.single) = true from rfl, if_true] at h
    cases hop : orphanPass pks lof db with
    | ok db2 evs2 u2 =>
      rw [hop] at h
      simp only [MRes.ok.injEq] at h
      obtain ⟨hdb, hevs, _⟩ := h
      subst hdb
      subst hevs
      exact orphanPass_spec pks lof db _ _ u2 hnd hop
    | err db2 evs2 e => rw [hop] at h; exact absurd h (by simp)
  · intro r setm lof should db hown
    rw [m2mApply_def]
    by_cases hg : (!lof.isEmpty && should) = true
    · rw [if_pos hg]
      cases setm with
      | none => exact ⟨some (.children lof), rfl⟩
      | some pks =>
        obtain ⟨lfs, own, nm, opt⟩ := r
        cases hown
        exact ⟨some (.children lof), rfl⟩
    · rw [if_neg hg]
      exact ⟨Option.none, rfl⟩
  · intro rm setm should db
    rw [m2mApply_def]
    rw [if_neg (by simp : ¬((!([] : List (Option Nat)).isEmpty && should) = true))]

/-- Witness for C2: a post keeps tag 1 and drops tag 2; under single
ownership tag row 2 is deleted while tag row 1 survives. -/
theorem C2_m2m_ownership_rules_witness :
    (rowOf ⟨[rowL, rowTa, rowP], 4⟩ 2 = Option.none ∧ Ev.delete 2 ∈ [Ev.delete 2]) ∧
    rowOf ⟨[rowL, rowTa, rowP], 4⟩ 1 = rowOf dbW 1 := by
  have h : m2mApply (some ⟨["slug"], .single, "T", some []⟩) (some [1, 2]) [some 1] true dbW =
      MRes.ok ⟨[rowL, rowTa, rowP], 4⟩ [Ev.delete 2] (some (.children [some 1])) := rfl
  have hs := C2_m2m_ownership_rules.1 ⟨["slug"], .single, "T", some []⟩ [1, 2] [some 1]
    dbW ⟨[rowL, rowTa, rowP], 4⟩ [Ev.delete 2] (some (.children [some 1])) rfl
    (by simp) (by simp) h
  exact ⟨(hs 2 (by simp)).1 rfl, (hs 1 (by simp)).2 rfl⟩


/-- Saving a row does not disturb rows with other primary keys. -/
theorem dbSave_rowOf_ne (db : DB) (o : Obj) (q : Nat) (hq : q ≠ o.pk) :
    rowOf (dbSave db o) q = rowOf db q := by
  rw [dbSave]
  by_cases hany : db.objs.any (fun r => r.pk = o.pk)
  · rw [if_pos hany]
    show (db.objs.map fun r => if r.pk = o.pk then o else r).find? (fun r => r.pk = q) =
      db.objs.find? (fun r => r.pk = q)
    induction db.objs with
    | nil => rfl
    | cons r t ih =>
      rw [List.map_cons]
      by_cases h : r.pk = o.pk
      · rw [if_pos h]
        rw [List.find?_cons_of_neg _ (by simp [Ne.symm hq])]
        rw [List.find?_cons_of_neg _ (by simp [h, Ne.symm hq])]
        exact ih
      · rw [if_neg h]
        by_cases h2 : r.pk = q
        · rw [List.find?_cons_of_pos _ (by simp [h2]), List.find?_cons_of_pos _ (by simp [h2])]
        · rw [List.find?_cons_of_neg _ (by simp [h2]), List.find?_cons_of_neg _ (by simp [h2])]
          exact ih
  · rw [if_neg hany]
    show (db.objs ++ [o]).find? (fun r => r.pk = q) = db.objs.find? (fun r => r.pk = q)
    induction db.objs with
    | nil =>
      simp only [List.nil_append]
      rw [List.find?_cons_of_neg _ (by simp [Ne.symm hq])]
    | cons r t ih =>
      rw [List.cons_append]
      by_cases h2 : r.pk = q
      · rw [List.find?_cons_of_pos _ (by simp [h2]), List.find?_cons_of_pos _ (by simp [h2])]
      · rw [List.find?_cons_of_neg _ (by simp [h2]), List.find?_cons_of_neg _ (by simp [h2])]
        exact ih

/-- Replacing the matching rows with `o` makes `o` retrievable. -/
theorem find_map_replace_self (l : List Obj) (o : Obj) (w : Obj) (hw : w ∈ l)
    (hwpk : w.pk = o.pk) :
    (l.map fun r => if r.pk = o.pk then o else r).find? (fun r => r.pk = o.pk) = some o := by
  induction l with
  | nil => exact absurd hw (List.not_mem_nil w)
  | cons r t ih =>
    rw [List.map_cons]
    by_cases h : r.pk = o.pk
    · rw [if_pos h]
      rw [List.find?_cons_of_pos _ (by simp)]
    · rw [if_neg h]
      rw [List.find?_cons_of_neg _ (by simp [h])]
      rcases List.mem_cons.mp hw with heq | hmem
      · exact absurd (heq ▸ hwpk) (by simpa using h)
      · exact ih hmem

/-- Appending `o` to rows that do not carry its key makes `o`
retrievable. -/
theorem find_append_self (l : List Obj) (o : Obj) (hnone : ∀ r ∈ l, ¬ r.pk = o.pk) :
    (l ++ [o]).find? (fun r => r.pk = o.pk) = some o := by
  induction l with
  | nil =>
    simp only [List.nil_append]
    rw [List.find?_cons_of_pos _ (by simp)]
  | cons r t ih =>
    rw [List.cons_append]
    rw [List.find?_cons_of_neg _ (by simp [hnone r (List.mem_cons_self r t)])]
    exact ih (fun x hx => hnone x (List.mem_cons_of_mem r hx))

/-- Saving a row makes it retrievable under its primary key. -/
theorem dbSave_rowOf_self (db : DB) (o : Obj) :
    rowOf (dbSave db o) o.pk = some o := by
  rw [dbSave]
  by_cases hany : db.objs.any (fun r => r.pk = o.pk)
  · rw [if_pos hany]
    rw [List.any_eq_true] at hany
    obtain ⟨w, hw, hwpk⟩ := hany
    exact find_map_replace_self db.objs o w hw (by simpa using hwpk)
  · rw [if_neg hany]
    rw [List.any_eq_true] at hany
    push_neg at hany
    exact find_append_self db.objs o (fun r hr => by simpa using hany r hr)

/-- Appending a fresh row does not disturb other primary keys. -/
theorem rowOf_append_ne (objs : List Obj) (n : Nat) (x : Obj) (q : Nat) (hq : q ≠ x.pk) :
    rowOf ⟨objs ++ [x], n⟩ q = rowOf ⟨objs, n⟩ q := by
  show (objs ++ [x]).find? (fun r => r.pk = q) = objs.find? (fun r => r.pk = q)
  induction objs with
  | nil =>
    simp only [List.nil_append]
    rw [List.find?_cons_of_neg _ (by simp [Ne.symm hq])]
  | cons r t ih =>
    rw [List.cons_append]
    by_cases h2 : r.pk = q
    · rw [List.find?_cons_of_pos _ (by simp [h2]), List.find?_cons_of_pos _ (by simp [h2])]
    · rw [List.find?_cons_of_neg _ (by simp [h2]), List.find?_cons_of_neg _ (by simp [h2])]
      exact ih

/-- Secondary field application keeps the instance's primary key and only
writes rows carrying that key. -/
theorem applySecondary_frame : ∀ (sec : List (String × DVal)) (model : String) (o : Obj)
    (db db' : DB) (evs : List Ev) (o' : Obj),
    applySecondary model sec o db = .ok db' evs o' →
    o'.pk = o.pk ∧ ∀ q, q ≠ o.pk → rowOf db' q = rowOf db q := by
  intro sec
  induction sec with
  | nil =>
    intro model o db db' evs o' h
    cases h
    exact ⟨rfl, fun _ _ => rfl⟩
  | cons kv rest ih =>
    intro model o db db' evs o' h
    obtain ⟨k, v⟩ := kv
    cases v with
    | raw w =>
      cases w with
      | file n sz mt =>
        replace h : (match getattrA o k with
            | Attr.file _ =>
              (match applySecondary model rest
                  { o with attrs := dinsert o.attrs k (Attr.file (some ⟨n, sz, mt, true⟩)) }
                  (dbSave db
                    { o with attrs := dinsert o.attrs k (Attr.file (some ⟨n, sz, mt, true⟩)) }) with
                | MRes.ok db2 evs2 o2 => MRes.ok db2 (Ev.fileSave o.pk k :: evs2) o2
                | MRes.err db2 evs2 e => MRes.err db2 (Ev.fileSave o.pk k :: evs2) e)
            | _ => MRes.err db [] MErr.badValue) = MRes.ok db' evs o' := h
        cases hga : getattrA o k with
        | file f =>
          rw [hga] at h
          replace h : (match applySecondary model rest
              { o with attrs := dinsert o.attrs k (Attr.file (some ⟨n, sz, mt, true⟩)) }
              (dbSave db
                { o with attrs := dinsert o.attrs k (Attr.file (some ⟨n, sz, mt, true⟩)) }) with
            | MRes.ok db2 evs2 o2 => MRes.ok db2 (Ev.fileSave o.pk k :: evs2) o2
            | MRes.err db2 evs2 e => MRes.err db2 (Ev.fileSave o.pk k :: evs2) e) =
              MRes.ok db' evs o' := h
          cases hrec : applySecondary model rest
              { o with attrs := dinsert o.attrs k (Attr.file (some ⟨n, sz, mt, true⟩)) }
              (dbSave db
                { o with attrs := dinsert o.attrs k (Attr.file (some ⟨n, sz, mt, true⟩)) }) with
          | ok db2 evs2 o2 =>
            rw [hrec] at h
            replace h : MRes.ok db2 (Ev.fileSave o.pk k :: evs2) o2 = MRes.ok db' evs o' := h
            simp only [MRes.ok.injEq] at h
            obtain ⟨hdb, _, ho⟩ := h
            subst hdb
            subst ho
            obtain ⟨hpk, hframe⟩ := ih model _ _ _ _ _ hrec
            refine ⟨hpk, fun q hqne => ?_⟩
            rw [hframe q hqne]
            exact dbSave_rowOf_ne db _ q hqne
          | err db2 evs2 e =>
            rw [hrec] at h
            replace h : MRes.err db2 (Ev.fileSave o.pk k :: evs2) e = MRes.ok db' evs o' := h
            simp at h
        | v x =>
          rw [hga] at h
          replace h : MRes.err db [] MErr.badValue = MRes.ok db' evs o' := h
          simp at h
        | ref p =>
          rw [hga] at h
          replace h : MRes.err db [] MErr.badValue = MRes.ok db' evs o' := h
          simp at h
        | many pks =>
          rw [hga] at h
          replace h : MRes.err db [] MErr.badValue = MRes.ok db' evs o' := h
          simp at h
      | v x =>
        replace h : MRes.err db [] MErr.badValue = MRes.ok db' evs o' := h
        simp at h
      | dict d =>
        replace h : MRes.err db [] MErr.badValue = MRes.ok db' evs o' := h
        simp at h
      | list xs =>
        replace h : MRes.err db [] MErr.badValue = MRes.ok db' evs o' := h
        simp at h
    | child p =>
      replace h : MRes.err db [] MErr.badValue = MRes.ok db' evs o' := h
      simp at h
    | children ps =>
      replace h : (match allSome ps with
          | some pks =>
            (match applySecondary model rest
                { o with attrs := dinsert o.attrs k (Attr.many pks) } db with
              | MRes.ok db2 evs2 o2 => MRes.ok db2 (Ev.m2mSet o.pk k :: evs2) o2
              | MRes.err db2 evs2 e => MRes.err db2 (Ev.m2mSet o.pk k :: evs2) e)
          | Option.none => MRes.err db [] MErr.badValue) = MRes.ok db' evs o' := h
      cases hall : allSome ps with
      | some pks =>
        rw [hall] at h
        replace h : (match applySecondary model rest
            { o with attrs := dinsert o.attrs k (Attr.many pks) } db with
          | MRes.ok db2 evs2 o2 => MRes.ok db2 (Ev.m2mSet o.pk k :: evs2) o2
          | MRes.err db2 evs2 e => MRes.err db2 (Ev.m2mSet o.pk k :: evs2) e) =
            MRes.ok db' evs o' := h
        cases hrec : applySecondary model rest
            { o with attrs := dinsert o.attrs k (Attr.many pks) } db with
        | ok db2 evs2 o2 =>
          rw [hrec] at h
          replace h : MRes.ok db2 (Ev.m2mSet o.pk k :: evs2) o2 = MRes.ok db' evs o' := h
          simp only [MRes.ok.injEq] at h
          obtain ⟨hdb, _, ho⟩ := h
          subst hdb
          subst ho
          obtain ⟨hpk, hframe⟩ := ih model _ _ _ _ _ hrec
          exact ⟨hpk, fun q hqne => hframe q hqne⟩
        | err db2 evs2 e =>
          rw [hrec] at h
          replace h : MRes.err db2 (Ev.m2mSet o.pk k :: evs2) e = MRes.ok db' evs o' := h
          simp at h
      | none =>
        rw [hall] at h
        replace h : MRes.err db [] MErr.badValue = MRes.ok db' evs o' := h
        simp at h

/-- C8: when an existing object is updated (updating is true) with a
non-empty field diff and ownership SHARED, the save block does not modify
the matched row in place: it creates a brand-new row (fresh primary key
`db.next`, an `objects.create` event) carrying the diffed primary fields,
returns that new row, and the originally matched row is left untouched. -/
theorem C8_shared_update_creates_new_row
    (model : String) (d : List (String × DVal)) (o : Obj) (db db' : DB)
    (evs : List Ev) (res : Option Obj)
    (hopk : o.pk ≠ db.next) (hne : d ≠ [])
    (h : saveDiff model true .shared d (some o) db = .ok db' evs res) :
    ∃ o', res = some o' ∧ o'.pk = db.next ∧ o'.pk ≠ o.pk ∧
      Ev.create model db.next ∈ evs ∧
      rowOf db' db.next = some o' ∧
      rowOf db' o.pk = rowOf db o.pk ∧
      (d.filter (fun x => isSecondary x.2) = [] →
        o'.attrs = (d.filter (fun x => !isSecondary x.2)).map
          (fun x => (x.1, attrOfPrimary x.2))) := by
  cases d with
  | nil => exact absurd rfl hne
  | cons kv rest =>
    replace h : (match applySecondary model
        ((kv :: rest).filter (fun x => isSecondary x.2))
        (⟨db.next, model, ((kv :: rest).filter (fun x => !isSecondary x.2)).map
          (fun x => (x.1, attrOfPrimary x.2))⟩ : Obj)
        (⟨db.objs ++ [(⟨db.next, model,
            ((kv :: rest).filter (fun x => !isSecondary x.2)).map
              (fun x => (x.1, attrOfPrimary x.2))⟩ : Obj)], db.next + 1⟩ : DB) with
      | MRes.err db1 evs1 e => MRes.err db1 ([Ev.create model db.next] ++ evs1) e
      | MRes.ok db1 evs1 o1 =>
        MRes.ok (dbSave db1 o1)
          ([Ev.create model db.next] ++ evs1 ++ [Ev.save model o1.pk])
          (some o1)) = MRes.ok db' evs res := h
    cases hsec : applySecondary model
        ((kv :: rest).filter (fun x => isSecondary x.2))
        (⟨db.next, model, ((kv :: rest).filter (fun x => !isSecondary x.2)).map
          (fun x => (x.1, attrOfPrimary x.2))⟩ : Obj)
        (⟨db.objs ++ [(⟨db.next, model,
            ((kv :: rest).filter (fun x => !isSecondary x.2)).map
              (fun x => (x.1, attrOfPrimary x.2))⟩ : Obj)], db.next + 1⟩ : DB) with
    | ok db1 evs1 o1 =>
      rw [hsec] at h
      replace h : MRes.ok (dbSave db1 o1)
          ([Ev.create model db.next] ++ evs1 ++ [Ev.save model o1.pk])
          (some o1) = MRes.ok db' evs res := h
      simp only [MRes.ok.injEq] at h
      obtain ⟨hdb, hevs, hres⟩ := h
      obtain ⟨hpk, hframe⟩ := applySecondary_frame _ model _ _ _ _ _ hsec
      refine ⟨o1, hres.symm, ?_, ?_, ?_, ?_, ?_, ?_⟩
      · exact hpk
      · rw [hpk]
        exact fun hc => hopk hc.symm
      · rw [← hevs]
        simp
      · rw [← hdb]
        have h5 := dbSave_rowOf_self db1 o1
        rw [hpk] at h5
        exact h5
      · rw [← hdb]
        rw [dbSave_rowOf_ne db1 o1 o.pk (by rw [hpk]; exact fun hc => hopk hc)]
        rw [hframe o.pk (fun hc => hopk hc)]
        rw [rowOf_append_ne db.objs (db.next + 1) _ o.pk hopk]
        rfl
      · intro hnil
        rw [hnil] at hsec
        replace hsec : MRes.ok
            (⟨db.objs ++ [(⟨db.next, model,
                ((kv :: rest).filter (fun x => !isSecondary x.2)).map
                  (fun x => (x.1, attrOfPrimary x.2))⟩ : Obj)], db.next + 1⟩ : DB)
            ([] : List Ev)
            (⟨db.next, model, ((kv :: rest).filter (fun x => !isSecondary x.2)).map
              (fun x => (x.1, attrOfPrimary x.2))⟩ : Obj) =
            MRes.ok db1 evs1 o1 := hsec
        simp only [MRes.ok.injEq] at hsec
        obtain ⟨_, _, ho1⟩ := hsec
        rw [← ho1]
    | err db1 evs1 e =>
      rw [hsec] at h
      replace h : MRes.err db1 ([Ev.create model db.next] ++ evs1) e =
          MRes.ok db' evs res := h
      simp at h

theorem C8_shared_update_creates_new_row_witness :
    rowL.pk ≠ dbW.next ∧
    ([("name", DVal.raw (FVal.v (Val.s "Anglais")))] : List (String × DVal)) ≠ [] ∧
    (∃ o', (some row8 : Option Obj) = some o' ∧ o'.pk = dbW.next ∧ o'.pk ≠ rowL.pk ∧
      Ev.create "L" dbW.next ∈ [Ev.create "L" 4, Ev.save "L" 4] ∧
      rowOf db8 dbW.next = some o' ∧
      rowOf db8 rowL.pk = rowOf dbW rowL.pk ∧
      (([("name", DVal.raw (FVal.v (Val.s "Anglais")))] : List (String × DVal)).filter
          (fun x => isSecondary x.2) = [] →
        o'.attrs = (([("name", DVal.raw (FVal.v (Val.s "Anglais")))] :
            List (String × DVal)).filter (fun x => !isSecondary x.2)).map
          (fun x => (x.1, attrOfPrimary x.2)))) := by
  have hopk : rowL.pk ≠ dbW.next := by decide
  have hne : ([("name", DVal.raw (FVal.v (Val.s "Anglais")))] : List (String × DVal)) ≠ [] := by
    simp
  have h : saveDiff "L" true .shared [("name", DVal.raw (FVal.v (Val.s "Anglais")))]
      (some rowL) dbW = .ok db8 [Ev.create "L" 4, Ev.save "L" 4] (some row8) := rfl
  exact ⟨hopk, hne,
    C8_shared_update_creates_new_row "L" _ rowL dbW db8 _ (some row8) hopk hne h⟩

/-- `runPass` reports a missing mapper exactly when the pass started with
one still unloaded. -/
theorem runPass_miss {W M : Type} (step : W → M → Bool × W) (ms : List (Bool × M)) (w : W) :
    (runPass step ms w).miss = ms.any (fun p => !p.1) := by
  induction ms generalizing w with
  | nil => rfl
  | cons p rest ih =>
    obtain ⟨ld, m⟩ := p
    cases ld with
    | true =>
      show (runPass step rest w).miss = ((true, m) :: rest).any (fun p => !p.1)
      rw [ih w]
      simp
    | false =>
      show true = ((false, m) :: rest).any (fun p => !p.1)
      simp

theorem countUnloaded_cons {M : Type} (b : Bool) (m : M) (l : List (Bool × M)) :
    countUnloaded ((b, m) :: l) = (if b then 0 else 1) + countUnloaded l := by
  cases b <;> simp [countUnloaded, List.filter_cons] <;> omega

/-- A pass never unloads a mapper; a successful pass strictly reduces the
number of unloaded mappers; a pass with no success leaves the list as it
was. -/
theorem runPass_count {W M : Type} (step : W → M → Bool × W) (ms : List (Bool × M)) (w : W) :
    countUnloaded (runPass step ms w).ms ≤ countUnloaded ms ∧
    ((runPass step ms w).succ = true →
      countUnloaded (runPass step ms w).ms < countUnloaded ms) ∧
    ((runPass step ms w).succ = false → (runPass step ms w).ms = ms) := by
  induction ms generalizing w with
  | nil => exact ⟨le_refl _, fun h => Bool.noConfusion h, fun _ => rfl⟩
  | cons p rest ih =>
    obtain ⟨ld, m⟩ := p
    cases ld with
    | true =>
      obtain ⟨h1, h2, h3⟩ := ih w
      refine ⟨?_, fun hs => ?_, fun hs => ?_⟩
      · show countUnloaded ((true, m) :: (runPass step rest w).ms) ≤
          countUnloaded ((true, m) :: rest)
        rw [countUnloaded_cons, countUnloaded_cons]
        simpa using h1
      · replace hs : (runPass step rest w).succ = true := hs
        show countUnloaded ((true, m) :: (runPass step rest w).ms) <
          countUnloaded ((true, m) :: rest)
        rw [countUnloaded_cons, countUnloaded_cons]
        simpa using h2 hs
      · replace hs : (runPass step rest w).succ = false := hs
        show (true, m) :: (runPass step rest w).ms = (true, m) :: rest
        rw [h3 hs]
    | false =>
      obtain ⟨h1, h2, h3⟩ := ih (step w m).2
      refine ⟨?_, fun hs => ?_, fun hs => ?_⟩
      · show countUnloaded (((step w m).1, m) :: (runPass step rest (step w m).2).ms) ≤
          countUnloaded ((false, m) :: rest)
        rw [countUnloaded_cons, countUnloaded_cons]
        cases (step w m).1 <;> simp <;> omega
      · replace hs : ((runPass step rest (step w m).2).succ || (step w m).1) = true := hs
        show countUnloaded (((step w m).1, m) :: (runPass step rest (step w m).2).ms) <
          countUnloaded ((false, m) :: rest)
        rw [countUnloaded_cons, countUnloaded_cons]
        cases hb : (step w m).1 with
        | true => simp; omega
        | false =>
          rw [hb] at hs
          simp at hs
          have := h2 hs
          simp
          omega
      · replace hs : ((runPass step rest (step w m).2).succ || (step w m).1) = false := hs
        simp at hs
        obtain ⟨hs1, hs2⟩ := hs
        show ((step w m).1, m) :: (runPass step rest (step w m).2).ms = (false, m) :: rest
        rw [hs2, h3 hs1]

theorem countUnloaded_eq_zero {M : Type} (l : List (Bool × M)) :
    countUnloaded l = 0 ↔ ∀ p ∈ l, p.1 = true := by
  simp [countUnloaded, List.length_eq_zero, List.filter_eq_nil]

/-- C3: for every finite list of mappers, the retry loop in `mom_run`
terminates: with fuel exceeding the number of unloaded mappers the loop
returns a result (each pass either marks at least one mapper as loaded,
shrinking the unloaded count, or exits); the loop exits normally
(`RunOut.success`) exactly when every mapper is loaded, and a failing exit
reports exactly the unloaded mappers, of which there is at least one. -/
theorem C3_retry_loop_terminates {W M : Type} (step : W → M → Bool × W) :
    ∀ (fuel : Nat) (ms : List (Bool × M)) (w : W), countUnloaded ms < fuel →
    ∃ out ms' w', momLoop step fuel ms w = some (out, ms', w') ∧
      (out = RunOut.success ↔ ∀ p ∈ ms', p.1 = true) ∧
      (∀ fails, out = RunOut.failed fails →
        fails = (ms'.filter (fun p => !p.1)).map (fun p => p.2) ∧ fails ≠ []) := by
  intro fuel
  induction fuel with
  | zero => exact fun ms w h => absurd h (Nat.not_lt_zero _)
  | succ fuel ih =>
    intro ms w hfuel
    obtain ⟨h1, h2, h3⟩ := runPass_count step ms w
    cases hmiss : (runPass step ms w).miss with
    | false =>
      refine ⟨RunOut.success, (runPass step ms w).ms, (runPass step ms w).w, ?_, ?_, ?_⟩
      · show (if (runPass step ms w).miss then
            (if (runPass step ms w).succ then
              momLoop step fuel (runPass step ms w).ms (runPass step ms w).w
            else some (RunOut.failed
                (((runPass step ms w).ms.filter (fun p => !p.1)).map (fun p => p.2)),
              (runPass step ms w).ms, (runPass step ms w).w))
          else some (RunOut.success, (runPass step ms w).ms, (runPass step ms w).w)) =
          some (RunOut.success, (runPass step ms w).ms, (runPass step ms w).w)
        rw [hmiss]
        simp
      · constructor
        · intro _
          have hany : ms.any (fun p => !p.1) = false := by
            have hm := runPass_miss step ms w
            rw [hmiss] at hm
            exact hm.symm
          have hz : countUnloaded ms = 0 := by
            rw [countUnloaded_eq_zero]
            intro p hp
            rw [List.any_eq_false] at hany
            have := hany p hp
            simpa using this
          have : countUnloaded (runPass step ms w).ms = 0 := Nat.le_zero.mp (hz ▸ h1)
          exact (countUnloaded_eq_zero _).mp this
        · intro _
          rfl
      · intro fails hcontra
        exact RunOut.noConfusion hcontra
    | true =>
      cases hsucc : (runPass step ms w).succ with
      | true =>
        have hlt : countUnloaded (runPass step ms w).ms < fuel :=
          lt_of_lt_of_le (h2 hsucc) (Nat.lt_succ_iff.mp hfuel)
        obtain ⟨out, ms', w', hm, hiff, hfl⟩ :=
          ih (runPass step ms w).ms (runPass step ms w).w hlt
        refine ⟨out, ms', w', ?_, hiff, hfl⟩
        show (if (runPass step ms w).miss then
            (if (runPass step ms w).succ then
              momLoop step fuel (runPass step ms w).ms (runPass step ms w).w
            else some (RunOut.failed
                (((runPass step ms w).ms.filter (fun p => !p.1)).map (fun p => p.2)),
              (runPass step ms w).ms, (runPass step ms w).w))
          else some (RunOut.success, (runPass step ms w).ms, (runPass step ms w).w)) =
          some (out, ms', w')
        rw [hmiss, hsucc]
        simpa using hm
      | false =>
        have hms : (runPass step ms w).ms = ms := h3 hsucc
        have hany : ms.any (fun p => !p.1) = true := by
          have hm := runPass_miss step ms w
          rw [hmiss] at hm
          exact hm.symm
        refine ⟨RunOut.failed
            (((runPass step ms w).ms.filter (fun p => !p.1)).map (fun p => p.2)),
          (runPass step ms w).ms, (runPass step ms w).w, ?_, ?_, ?_⟩
        · show (if (runPass step ms w).miss then
              (if (runPass step ms w).succ then
                momLoop step fuel (runPass step ms w).ms (runPass step ms w).w
              else some (RunOut.failed
                  (((runPass step ms w).ms.filter (fun p => !p.1)).map (fun p => p.2)),
                (runPass step ms w).ms, (runPass step ms w).w))
            else some (RunOut.success, (runPass step ms w).ms, (runPass step ms w).w)) =
            some (RunOut.failed
                (((runPass step ms w).ms.filter (fun p => !p.1)).map (fun p => p.2)),
              (runPass step ms w).ms, (runPass step ms w).w)
          rw [hmiss, hsucc]
          simp
        · constructor
          · intro hc
            exact RunOut.noConfusion hc
          · intro hall
            rw [List.any_eq_true] at hany
            obtain ⟨p, hp, hps⟩ := hany
            have hpl := hall p (by rw [hms]; exact hp)
            rw [hpl] at hps
            simp at hps
        · intro fails heq
          refine ⟨(RunOut.failed.inj heq).symm, ?_⟩
          rw [← RunOut.failed.inj heq, hms]
          rw [List.any_eq_true] at hany
          obtain ⟨p, hp, hps⟩ := hany
          intro hnil
          have hfil : ms.filter (fun p => !p.1) = [] := by
            cases hcase : ms.filter (fun p => !p.1) with
            | nil => rfl
            | cons a l =>
              rw [hcase] at hnil
              simp at hnil
          rw [List.filter_eq_nil] at hfil
          exact (hfil p hp) hps

theorem C3_retry_loop_terminates_witness :
    countUnloaded ([(false, 1), (false, 2)] : List (Bool × Nat)) < 3 ∧
    (∃ out ms' w', momLoop (fun (w m : Nat) => (decide (m ≤ w), w + 2)) 3
        [(false, 1), (false, 2)] 0 = some (out, ms', w') ∧
      (out = RunOut.success ↔ ∀ p ∈ ms', p.1 = true) ∧
      (∀ fails, out = RunOut.failed fails →
        fails = (ms'.filter (fun p => !p.1)).map (fun p => p.2) ∧ fails ≠ [])) := by
  have h : countUnloaded ([(false, 1), (false, 2)] : List (Bool × Nat)) < 3 := by decide
  exact ⟨h, C3_retry_loop_terminates (fun (w m : Nat) => (decide (m ≤ w), w + 2)) 3
    [(false, 1), (false, 2)] 0 h⟩

/-- Python dict assignment appends when the key is absent. -/
theorem dinsert_of_not_mem {α : Type} (acc : List (String × α)) (key : String) (x : α)
    (h : ∀ kv ∈ acc, kv.1 ≠ key) : dinsert acc key x = acc ++ [(key, x)] := by
  induction acc with
  | nil => rfl
  | cons kv rest ih =>
    obtain ⟨k, v⟩ := kv
    show (if k = key then (k, x) :: rest else (k, v) :: dinsert rest key x) =
      (k, v) :: (rest ++ [(key, x)])
    rw [if_neg (h (k, v) (List.mem_cons_self _ _))]
    rw [ih (fun kv hkv => h kv (List.mem_cons_of_mem _ hkv))]

mutual

/-- With no list at any depth and pairwise distinct joined keys, the
accumulator-passing loop of `flatten_lookup_fields` appends exactly the
spec-side flat dictionary. -/
theorem flattenAux_flatSpec :
    ∀ (fs : List (String × FVal)) (parent : Option String) (acc : List (String × FVal)),
    hasListFields fs = false →
    List.Nodup ((acc ++ flatSpecFields fs parent).map Prod.fst) →
    flattenAux fs parent acc = .ok (acc ++ flatSpecFields fs parent)
  | [], parent, acc, _, _ => by
    show Except.ok acc = Except.ok (acc ++ flatSpecFields [] parent)
    rw [show flatSpecFields [] parent = [] from rfl, List.append_nil]
  | (k, v) :: rest, parent, acc, hnl, hnd => by
    have hnl' : (hasListVal v || hasListFields rest) = false := hnl
    have hv := (Bool.or_eq_false_iff.mp hnl').1
    have hr := (Bool.or_eq_false_iff.mp hnl').2
    have hspec : flatSpecFields ((k, v) :: rest) parent =
        flatSpecVal v (qualKey parent k) ++
        flatSpecFields rest parent := rfl
    rw [hspec] at hnd
    have hnd1 : List.Nodup ((acc ++
        flatSpecVal v (qualKey parent k)).map Prod.fst) := by
      refine List.Nodup.sublist (List.Sublist.map _ ?_) hnd
      rw [← List.append_assoc]
      exact List.sublist_append_left _ _
    have hnd2 : List.Nodup (((acc ++
        flatSpecVal v (qualKey parent k)) ++
        flatSpecFields rest parent).map Prod.fst) := by
      rw [List.append_assoc]
      exact hnd
    have h1 := flattenVal_flatSpec v
      (qualKey parent k) acc hv hnd1
    have h2 := flattenAux_flatSpec rest parent
      (acc ++ flatSpecVal v
        (qualKey parent k)) hr hnd2
    show (match flattenVal v
        (qualKey parent k) acc with
      | .ok acc2 => flattenAux rest parent acc2
      | .error e => .error e) = .ok (acc ++ flatSpecFields ((k, v) :: rest) parent)
    rw [h1]
    exact h2.trans (by rw [hspec, List.append_assoc])

theorem flattenVal_flatSpec :
    ∀ (v : FVal) (qk : String) (acc : List (String × FVal)),
    hasListVal v = false →
    List.Nodup ((acc ++ flatSpecVal v qk).map Prod.fst) →
    flattenVal v qk acc = .ok (acc ++ flatSpecVal v qk)
  | .dict d, qk, acc, hnl, hnd => flattenAux_flatSpec d (some qk) acc hnl hnd
  | .list xs, _, _, hnl, _ => Bool.noConfusion hnl
  | .v x, qk, acc, _, hnd => by
    have hnm : ∀ kv ∈ acc, kv.1 ≠ qk := by
      intro kv hkv hq
      rw [List.map_append] at hnd
      have hdisj := (List.nodup_append.mp hnd).2.2
      refine hdisj (List.mem_map_of_mem Prod.fst hkv) ?_
      show kv.1 ∈ List.map Prod.fst [(qk, FVal.v x)]
      simp [hq]
    show Except.ok (dinsert acc qk (FVal.v x)) = Except.ok (acc ++ [(qk, FVal.v x)])
    rw [dinsert_of_not_mem acc qk _ hnm]
  | .file n sz mt, qk, acc, _, hnd => by
    have hnm : ∀ kv ∈ acc, kv.1 ≠ qk := by
      intro kv hkv hq
      rw [List.map_append] at hnd
      have hdisj := (List.nodup_append.mp hnd).2.2
      refine hdisj (List.mem_map_of_mem Prod.fst hkv) ?_
      show kv.1 ∈ List.map Prod.fst [(qk, FVal.file n sz mt)]
      simp [hq]
    show Except.ok (dinsert acc qk (FVal.file n sz mt)) =
      Except.ok (acc ++ [(qk, FVal.file n sz mt)])
    rw [dinsert_of_not_mem acc qk _ hnm]

end

mutual

/-- A list value at any depth makes `flatten_lookup_fields` raise
`UnsupportedValueException`. -/
theorem flattenAux_hasList :
    ∀ (fs : List (String × FVal)) (parent : Option String) (acc : List (String × FVal)),
    hasListFields fs = true → flattenAux fs parent acc = .error .unsupported
  | [], _, _, hl => Bool.noConfusion hl
  | (k, v) :: rest, parent, acc, hl => by
    cases hv : hasListVal v with
    | true =>
      have h1 := flattenVal_hasList v
        (qualKey parent k) acc hv
      show (match flattenVal v
          (qualKey parent k) acc with
        | .ok acc2 => flattenAux rest parent acc2
        | .error e => .error e) = .error .unsupported
      rw [h1]
    | false =>
      have hr : hasListFields rest = true := by
        have h' : (hasListVal v || hasListFields rest) = true := hl
        rw [hv] at h'
        simpa using h'
      obtain ⟨acc2, hacc2⟩ := flattenVal_noList v
        (qualKey parent k) acc hv
      show (match flattenVal v
          (qualKey parent k) acc with
        | .ok acc2 => flattenAux rest parent acc2
        | .error e => .error e) = .error .unsupported
      rw [hacc2]
      exact flattenAux_hasList rest parent acc2 hr

theorem flattenVal_hasList :
    ∀ (v : FVal) (qk : String) (acc : List (String × FVal)),
    hasListVal v = true → flattenVal v qk acc = .error .unsupported
  | .dict d, qk, acc, h => flattenAux_hasList d (some qk) acc h
  | .list xs, _, _, _ => rfl
  | .v x, _, _, h => Bool.noConfusion h
  | .file n sz mt, _, _, h => Bool.noConfusion h

theorem flattenAux_noList :
    ∀ (fs : List (String × FVal)) (parent : Option String) (acc : List (String × FVal)),
    hasListFields fs = false → ∃ acc', flattenAux fs parent acc = .ok acc'
  | [], _, acc, _ => ⟨acc, rfl⟩
  | (k, v) :: rest, parent, acc, h => by
    have h' : (hasListVal v || hasListFields rest) = false := h
    have hv := (Bool.or_eq_false_iff.mp h').1
    have hr := (Bool.or_eq_false_iff.mp h').2
    obtain ⟨a1, ha1⟩ := flattenVal_noList v
      (qualKey parent k) acc hv
    obtain ⟨a2, ha2⟩ := flattenAux_noList rest parent a1 hr
    refine ⟨a2, ?_⟩
    show (match flattenVal v
        (qualKey parent k) acc with
      | .ok acc2 => flattenAux rest parent acc2
      | .error e => .error e) = .ok a2
    rw [ha1]
    exact ha2

theorem flattenVal_noList :
    ∀ (v : FVal) (qk : String) (acc : List (String × FVal)),
    hasListVal v = false → ∃ acc', flattenVal v qk acc = .ok acc'
  | .dict d, qk, acc, h => flattenAux_noList d (some qk) acc h
  | .list xs, _, _, h => Bool.noConfusion h
  | .v x, qk, acc, _ => ⟨dinsert acc qk (FVal.v x), rfl⟩
  | .file n sz mt, qk, acc, _ => ⟨dinsert acc qk (FVal.file n sz mt), rfl⟩

end

/-- Counterexample to C10 as stated: the literal top-level key `a__b`
(value 1) and the nested path `a -> b` (value 2) join to the same flat
key, and the later entry silently overwrites the earlier scalar, so a
non-dict non-list value is not preserved unchanged. -/
theorem C10_flatten_collision_counterexample :
    flatten_lookup_fields
        [("a__b", FVal.v (Val.i 1)), ("a", FVal.dict [("b", FVal.v (Val.i 2))])] =
      Except.ok [("a__b", FVal.v (Val.i 2))] ∧
    ¬ FVal.v (Val.i 1) = FVal.v (Val.i 2) := ⟨rfl, by simp⟩

/-- C10 (amended): `Mapper.flatten_lookup_fields` raises
`UnsupportedValueException` whenever any value at any depth is a list;
when no value is a list and the `__`-joined key paths are pairwise
distinct, it returns exactly the flat dictionary that joins each nesting
path with `__` and keeps every scalar value unchanged (`flatSpecFields`);
with colliding joined paths the later value overwrites the earlier one. -/
theorem C10_flatten_lookup_fields_flat (fs : List (String × FVal)) :
    (hasListFields fs = true → flatten_lookup_fields fs = .error .unsupported) ∧
    (hasListFields fs = false →
      List.Nodup ((flatSpecFields fs Option.none).map Prod.fst) →
      flatten_lookup_fields fs = .ok (flatSpecFields fs Option.none)) := by
  constructor
  · intro hl
    exact flattenAux_hasList fs Option.none [] hl
  · intro hnl hnd
    have h := flattenAux_flatSpec fs Option.none [] hnl (by simpa using hnd)
    simpa using h

theorem C10_flatten_lookup_fields_flat_witness :
    (hasListFields [("a", FVal.dict [("b", FVal.v (Val.i 1))]), ("c", FVal.v (Val.s "x"))] =
        false ∧
      List.Nodup ((flatSpecFields
        [("a", FVal.dict [("b", FVal.v (Val.i 1))]), ("c", FVal.v (Val.s "x"))]
        Option.none).map Prod.fst) ∧
      flatten_lookup_fields
          [("a", FVal.dict [("b", FVal.v (Val.i 1))]), ("c", FVal.v (Val.s "x"))] =
        .ok [("a__b", FVal.v (Val.i 1)), ("c", FVal.v (Val.s "x"))]) ∧
    (hasListFields [("l", FVal.list [])] = true ∧
      flatten_lookup_fields [("l", FVal.list [])] = .error .unsupported) := by
  have hnl : hasListFields
      [("a", FVal.dict [("b", FVal.v (Val.i 1))]), ("c", FVal.v (Val.s "x"))] = false := rfl
  have hnd : List.Nodup ((flatSpecFields
      [("a", FVal.dict [("b", FVal.v (Val.i 1))]), ("c", FVal.v (Val.s "x"))]
      Option.none).map Prod.fst) := by decide
  have hl : hasListFields [("l", FVal.list [])] = true := rfl
  exact ⟨⟨hnl, hnd,
      ((C10_flatten_lookup_fields_flat _).2 hnl hnd).trans rfl⟩,
    ⟨hl, (C10_flatten_lookup_fields_flat _).1 hl⟩⟩

/-- Membership in the mappers of one directory child. -/
theorem mem_mapperOfChild (model mainPath momFile : String) (c : FSEntry) (m : MSrc) :
    m ∈ mapperOfChild model mainPath momFile c ↔
      ((∃ cname gchildren, c = FSEntry.dir cname gchildren ∧ momPriv cname = true ∧
          m = ⟨model, cname, pjoin mainPath cname, momFile⟩) ∨
       (∃ cname mapName, c = FSEntry.file cname ∧
          momFolder momFile cname = some mapName ∧
          m = ⟨model, mapName, mainPath, cname⟩)) := by
  cases c with
  | dir cname g =>
    by_cases hp : momPriv cname = true
    · simp [mapperOfChild, hp]
    · simp [mapperOfChild, hp]
  | file cname =>
    cases hf : momFolder momFile cname with
    | none => simp [mapperOfChild, hf]
    | some mapName => simp [mapperOfChild, hf]

/-- Membership in the mappers of one top-level entry. -/
theorem mem_mapperOfEntry (mapping : List String) (folder momFile : String)
    (e : FSEntry) (m : MSrc) :
    m ∈ mapperOfEntry mapping folder momFile e ↔
      ((∃ fname model mapName, e = FSEntry.file fname ∧
          momFull momFile fname = some (model, mapName) ∧
          mapping.contains model = true ∧ m = ⟨model, mapName, folder, fname⟩) ∨
       (∃ dname children, e = FSEntry.dir dname children ∧
          momPriv dname = true ∧ mapping.contains dname = true ∧
          ∃ c ∈ children, m ∈ mapperOfChild dname (pjoin folder dname) momFile c)) := by
  cases e with
  | file name =>
    cases hf : momFull momFile name with
    | none => simp [mapperOfEntry, hf]
    | some pr =>
      obtain ⟨mo, mn⟩ := pr
      simp [mapperOfEntry, hf]
      constructor
      · rintro ⟨h1, h2⟩
        exact ⟨mo, mn, ⟨rfl, rfl⟩, h1, h2⟩
      · rintro ⟨x, y, ⟨hx, hy⟩, h1, h2⟩
        subst hx
        subst hy
        exact ⟨h1, h2⟩
  | dir dname children =>
    by_cases hp : momPriv dname = true
    · simp [mapperOfEntry, hp]
      constructor
      · rintro ⟨h1, c, hc2, hmc⟩
        exact ⟨dname, children, ⟨rfl, rfl⟩, hp, h1, c, hc2, hmc⟩
      · rintro ⟨x, y, ⟨hx, hy⟩, hxp, h1, c, hc2, hmc⟩
        subst hx
        subst hy
        exact ⟨h1, c, hc2, hmc⟩
    · simp [mapperOfEntry, hp]

/-- C7 (amended): fixture discovery follows the naming convention with
regex-dot separators: a top-level file yields a mapper exactly when
`FILE_PATTERN_FULL` matches it — both keys drawn from `[a-zA-Z0-9-_]+`
separated by ANY single character, since the dots of the pattern are
unescaped — and its model key is in the mom mapping; a top-level
directory whose name is a nonempty key run present in the mapping yields
one mapper per child file matching `FILE_PATTERN_FOLDER` (same unescaped
dots) and one per child directory whose name is a key run, regardless of
whether that child directory contains the `MOM_FILE`; all other entries
are skipped. -/
theorem C7_discovery_patterns (mapping : List String) (folder momFile : String)
    (entries : List FSEntry) (m : MSrc) :
    m ∈ loadMappersFrom mapping folder momFile entries ↔
      ((∃ fname model mapName, FSEntry.file fname ∈ entries ∧
          momFull momFile fname = some (model, mapName) ∧
          mapping.contains model = true ∧ m = ⟨model, mapName, folder, fname⟩) ∨
       (∃ dname children, FSEntry.dir dname children ∈ entries ∧
          momPriv dname = true ∧ mapping.contains dname = true ∧
          ((∃ cname gchildren, FSEntry.dir cname gchildren ∈ children ∧
              momPriv cname = true ∧
              m = ⟨dname, cname, pjoin (pjoin folder dname) cname, momFile⟩) ∨
           (∃ cname mapName, FSEntry.file cname ∈ children ∧
              momFolder momFile cname = some mapName ∧
              m = ⟨dname, mapName, pjoin folder dname, cname⟩)))) := by
  have h0 : m ∈ loadMappersFrom mapping folder momFile entries ↔
      ∃ e ∈ entries, m ∈ mapperOfEntry mapping folder momFile e := by
    simp [loadMappersFrom, List.mem_flatten]
  rw [h0]
  constructor
  · rintro ⟨e, he, hme⟩
    rw [mem_mapperOfEntry] at hme
    rcases hme with ⟨fname, model, mapName, heq, hfull, hcon, hm⟩ |
      ⟨dname, children, heq, hp, hcon, c, hc, hmc⟩
    · subst heq
      exact Or.inl ⟨fname, model, mapName, he, hfull, hcon, hm⟩
    · subst heq
      rw [mem_mapperOfChild] at hmc
      rcases hmc with ⟨cname, gch, hceq, hcp, hm⟩ | ⟨cname, mapName, hceq, hfold, hm⟩
      · subst hceq
        exact Or.inr ⟨dname, children, he, hp, hcon, Or.inl ⟨cname, gch, hc, hcp, hm⟩⟩
      · subst hceq
        exact Or.inr ⟨dname, children, he, hp, hcon,
          Or.inr ⟨cname, mapName, hc, hfold, hm⟩⟩
  · rintro (⟨fname, model, mapName, he, hfull, hcon, hm⟩ |
      ⟨dname, children, he, hp, hcon,
        (⟨cname, gch, hc, hcp, hm⟩ | ⟨cname, mapName, hc, hfold, hm⟩)⟩)
    · exact ⟨FSEntry.file fname, he, (mem_mapperOfEntry mapping folder momFile _ m).mpr
        (Or.inl ⟨fname, model, mapName, rfl, hfull, hcon, hm⟩)⟩
    · exact ⟨FSEntry.dir dname children, he,
        (mem_mapperOfEntry mapping folder momFile _ m).mpr
          (Or.inr ⟨dname, children, rfl, hp, hcon, FSEntry.dir cname gch, hc,
            (mem_mapperOfChild dname (pjoin folder dname) momFile _ m).mpr
              (Or.inl ⟨cname, gch, rfl, hcp, hm⟩)⟩)⟩
    · exact ⟨FSEntry.dir dname children, he,
        (mem_mapperOfEntry mapping folder momFile _ m).mpr
          (Or.inr ⟨dname, children, rfl, hp, hcon, FSEntry.file cname, hc,
            (mem_mapperOfChild dname (pjoin folder dname) momFile _ m).mpr
              (Or.inr ⟨cname, mapName, rfl, hfold, hm⟩)⟩)⟩

/-- Counterexample to C7 as stated: the dots of `FILE_PATTERN_FULL` are
unescaped regex dots, so `post~home~mom.yaml` — which is NOT of the form
`<model>.<name>.<MOM_FILE>` with literal dots — still yields a mapper;
and a child directory yields a mapper with no check that it contains the
`MOM_FILE`: an empty child directory still produces one. -/
theorem C7_discovery_counterexample :
    loadMappersFrom ["post"] "f" "mom.yaml" [FSEntry.file "post~home~mom.yaml"] =
      [⟨"post", "home", "f", "post~home~mom.yaml"⟩] ∧
    (∀ model mapName : String,
      model.data.all classChar = true → mapName.data.all classChar = true →
      "post~home~mom.yaml" ≠ model ++ "." ++ mapName ++ "." ++ "mom.yaml") ∧
    loadMappersFrom ["post"] "f" "mom.yaml"
        [FSEntry.dir "post" [FSEntry.dir "empty" []]] =
      [⟨"post", "empty", pjoin (pjoin "f" "post") "empty", "mom.yaml"⟩] := by
  refine ⟨rfl, ?_, rfl⟩
  intro model mapName hmo hmn he
  have hmem : '~' ∈ "post~home~mom.yaml".data := by decide
  rw [he] at hmem
  simp only [String.data_append] at hmem
  simp only [List.mem_append] at hmem
  rcases hmem with ((((h | h) | h) | h) | h)
  · exact absurd (List.all_eq_true.mp hmo '~' h) (by decide)
  · exact absurd h (by decide)
  · exact absurd (List.all_eq_true.mp hmn '~' h) (by decide)
  · exact absurd h (by decide)
  · exact absurd h (by decide)

end Mom
